import Mathlib

/-!
Shallow embedding of the SEIR contact-network simulator
(`ContactNetwork.py`, `Helper.py`).

Python floats are modelled as exact rationals (`ℚ`), node keys as `ℕ`,
the NetworkX graph as a node list together with an adjacency predicate
and a (possibly missing) edge-weight attribute, and `KeyError`-style
exceptions as `Except Unit`.  Random draws (`np.random.normal` in
`Distribution`) are modelled as explicit sample arguments: one sampled
value per node per step for each of the three distributions.
-/

attribute [local semireducible] Rat.add Rat.mul Rat.sub Rat.inv

namespace ContactNet

/-! `Helper.py`, class `Probability`: operations on probabilities. -/

namespace Probability

/-- `Probability.jointProbability(e)`: `np.prod(e)`, the product of all
the probabilities of the independent events. -/
def jointProbability (e : List ℚ) : ℚ :=
  e.prod

/-- `Probability.unionProbability(e)`:
`1 - Probability.jointProbability([1-x for x in e])`. -/
def unionProbability (e : List ℚ) : ℚ :=
  1 - jointProbability (e.map (fun x => 1 - x))

/-- One iteration of the loop body in `Probability.millers_algorithm`:
`prev = np.matmul(u, prev[1:]) * prob[0:size]` where `u` is the
upper-triangular all-ones matrix of dimension `size = len(prev) - 1`.
Entry `i` of the product `u @ prev[1:]` is the sum of the entries of
`prev[1:]` from position `i` on, i.e. `(prev.drop (i+1)).sum`. -/
def millersStep (e : List ℚ) (prev : List ℚ) : List ℚ :=
  (List.range (prev.length - 1)).map (fun i => e.getD i 0 * (prev.drop (i + 1)).sum)

/-- The `for r in range(2, n+1)` loop of `Probability.millers_algorithm`,
with the remaining iteration count as fuel; `sign` carries `(-1)**(r-1)`
for the next executed iteration. -/
def millersLoop (e : List ℚ) : List ℚ → ℚ → ℚ → ℕ → ℚ
  | _, res, _, 0 => res
  | prev, res, sign, k + 1 =>
    let prev' := millersStep e prev
    millersLoop e prev' (res + sign * prev'.sum) (-sign) k

/-- `Probability.millers_algorithm(e)`: inclusion–exclusion computation of
the union probability via Miller's recurrence.  `prev` starts as the
column vector of `e`, `res` as its sum, and the loop runs for
`r = 2, ..., n`. -/
def millers_algorithm (e : List ℚ) : ℚ :=
  millersLoop e e e.sum (-1) (e.length - 1)

/-- Proof device for relating the Miller recurrence to inclusion–exclusion:
the elementary symmetric function of a list, `∑` over all sublists of
length `r` of the product of their entries, defined by its cons
recurrence. -/
def esymm : ℕ → List ℚ → ℚ
  | 0, _ => 1
  | _ + 1, [] => 0
  | r + 1, a :: l => esymm (r + 1) l + a * esymm r l

/-- Proof device: the semantic value of the `prev` vector at stage `r`
of `millers_algorithm`: entry `i` sums the products over all
`r`-element sublists whose minimal index is `i`. -/
def prevVec (e : List ℚ) (r : ℕ) : List ℚ :=
  (List.range (e.length - r + 1)).map (fun i => e.getD i 0 * esymm (r - 1) (e.drop (i + 1)))

end Probability

/-- `ContactNetwork.State`: the ENUM of SEIR node states. -/
inductive ContactNetwork.State where
  | SUSCEPTIBLE
  | INFECTED
  | RECOVERED
  | EXPOSED
deriving DecidableEq

/-- The NetworkX graph handed to the `ContactNetwork` constructor:
node keys, adjacency, and the optional `'weight'` edge attribute
(`none` models an edge dict with no `'weight'` key). -/
structure Graph where
  nodes : List ℕ
  adj : ℕ → ℕ → Bool
  weight : ℕ → ℕ → Option ℚ

/-- The simulator state: the copied graph plus the node attributes
`state` and `time_changed_state` and the graph attribute `tau`. -/
structure ContactNetwork where
  nodes : List ℕ
  adj : ℕ → ℕ → Bool
  weight : ℕ → ℕ → Option ℚ
  state : ℕ → ContactNetwork.State
  time_changed_state : ℕ → ℕ
  tau : ℕ

namespace ContactNetwork

/-- `ContactNetwork._change_node_state(node, state)`: sets the node's
`state` attribute and stamps `time_changed_state` with the current
`tau`. -/
def change_node_state (cn : ContactNetwork) (node : ℕ) (s : State) : ContactNetwork :=
  { cn with
    state := fun m => if m = node then s else cn.state m
    time_changed_state := fun m => if m = node then cn.tau else cn.time_changed_state m }

/-- `ContactNetwork.__init__(graph)`: copy the graph, set `tau = 0`, and
set every node to `SUSCEPTIBLE` via `_change_node_state`.  The base
attribute maps stand for the not-yet-written NetworkX attribute dicts;
the constructor loop overwrites them for every node of the graph. -/
def init (g : Graph) : ContactNetwork :=
  let base : ContactNetwork :=
    { nodes := g.nodes
      adj := g.adj
      weight := g.weight
      state := fun _ => State.SUSCEPTIBLE
      time_changed_state := fun _ => 0
      tau := 0 }
  g.nodes.foldl (fun c node => c.change_node_state node State.SUSCEPTIBLE) base

/-- `self.graph.neighbors(node)`: the nodes adjacent to `node`. -/
def neighbors (cn : ContactNetwork) (node : ℕ) : List ℕ :=
  cn.nodes.filter (fun m => cn.adj node m)

/-- The list comprehension in the `SUSCEPTIBLE` branch of
`ContactNetwork._update`: for every neighbor whose state is `INFECTED`
or `EXPOSED`, the pair `(edge weight, neighbor's time_changed_state)`;
reading a missing `'weight'` attribute raises (`KeyError`). -/
def collectEdges (cn : ContactNetwork) (node : ℕ) : List ℕ → Except Unit (List (ℚ × ℕ))
  | [] => .ok []
  | n :: ns =>
    if cn.state n = State.INFECTED ∨ cn.state n = State.EXPOSED then
      match cn.weight node n with
      | none => .error ()
      | some w =>
        match collectEdges cn node ns with
        | .error u => .error u
        | .ok rest => .ok ((w, cn.time_changed_state n) :: rest)
    else
      collectEdges cn node ns

/-- The lambda `T = lambda r, t: 1 - (1 - r)**(tau - t)` in
`ContactNetwork._update` (`tau - t` is Python integer subtraction). -/
def T (tau : ℕ) (r : ℚ) (t : ℕ) : ℚ :=
  1 - (1 - r) ^ ((tau : ℤ) - (t : ℤ))

/-- The per-node body of the scan loop in `ContactNetwork._update`,
evaluated against the pre-step snapshot `cn`.  `recS`, `expS` and
`incS` are the values of the fresh samples
`Dist.sampleRecoveryDistribution()`, `Dist.sampleExposureDistribution()`
and `Dist.sampleInfectionDistribution()` drawn for this node.  Returns
the pending new state recorded into `modified_node_states`, if any. -/
def decision (cn : ContactNetwork) (node : ℕ) (recS expS incS : ℚ) :
    Except Unit (Option State) :=
  match cn.state node with
  | State.INFECTED =>
    .ok (if (cn.tau : ℚ) - (cn.time_changed_state node : ℚ) ≥ recS
         then some State.RECOVERED else none)
  | State.SUSCEPTIBLE =>
    match collectEdges cn node (cn.neighbors node) with
    | .error u => .error u
    | .ok edges =>
      let z := Probability.unionProbability (edges.map (fun p => T cn.tau p.1 p.2))
      .ok (if z ≥ expS then some State.EXPOSED else none)
  | State.EXPOSED =>
    .ok (if (cn.tau : ℚ) - (cn.time_changed_state node : ℚ) ≥ incS
         then some State.INFECTED else none)
  | State.RECOVERED => .ok none

/-- The full scan loop of `ContactNetwork._update`: builds the
`modified_node_states` map (as an association list in node-iteration
order) from the pre-step snapshot. -/
def computeModified (cn : ContactNetwork) (recS expS incS : ℕ → ℚ) :
    List ℕ → Except Unit (List (ℕ × State))
  | [] => .ok []
  | n :: ns =>
    match decision cn n (recS n) (expS n) (incS n) with
    | .error u => .error u
    | .ok none => computeModified cn recS expS incS ns
    | .ok (some s) =>
      match computeModified cn recS expS incS ns with
      | .error u => .error u
      | .ok rest => .ok ((n, s) :: rest)

/-- The application loop at the end of `ContactNetwork._update`:
`for node in modified_node_states: self._change_node_state(node, ...)`. -/
def applyMods (cn : ContactNetwork) (mods : List (ℕ × State)) : ContactNetwork :=
  mods.foldl (fun c p => c.change_node_state p.1 p.2) cn

/-- `ContactNetwork._update()`: scan every node against the pre-step
snapshot, then apply all pending changes and increment `tau`; returns
the updated network together with `modified_node_states`. -/
def update (cn : ContactNetwork) (recS expS incS : ℕ → ℚ) :
    Except Unit (ContactNetwork × List (ℕ × State)) :=
  match computeModified cn recS expS incS cn.nodes with
  | .error u => .error u
  | .ok mods => .ok ({ applyMods cn mods with tau := cn.tau + 1 }, mods)

/-- The seeding loop shared by `model_contact_network`,
`collect_statistics` and `get_animation_func`:
`for node in infected_nodes: self._change_node_state(node, INFECTED)`.
Accessing `self.graph.nodes[node]` for a key not in the graph raises a
`KeyError`; the returned pair is the (possibly partially seeded)
network together with the offending key, if any. -/
def seedNodes : ContactNetwork → List ℕ → ContactNetwork × Option ℕ
  | cn, [] => (cn, none)
  | cn, k :: ks =>
    if k ∈ cn.nodes then seedNodes (cn.change_node_state k State.INFECTED) ks
    else (cn, some k)

/-- The iteration loop of `ContactNetwork.model_contact_network`: one
`_update()` per entry of `samples`, each entry holding the three
per-node sample maps for that step. -/
def runSteps : ContactNetwork → List ((ℕ → ℚ) × (ℕ → ℚ) × (ℕ → ℚ)) →
    Except Unit ContactNetwork
  | cn, [] => .ok cn
  | cn, s :: rest =>
    match update cn s.1 s.2.1 s.2.2 with
    | .error u => .error u
    | .ok (cn', _) => runSteps cn' rest

/-- `ContactNetwork.model_contact_network(infected_nodes, num_iterations)`
without the console I/O: seed the infected nodes, then step
`num_iterations` times. -/
def model_contact_network (cn : ContactNetwork) (infected_nodes : List ℕ)
    (samples : List ((ℕ → ℚ) × (ℕ → ℚ) × (ℕ → ℚ))) : Except Unit ContactNetwork :=
  match seedNodes cn infected_nodes with
  | (_, some _) => .error ()
  | (cn0, none) => runSteps cn0 samples

/-- `total_nodes_modified` bookkeeping in `collect_statistics`: how many
entries of `modified_node_states` carry the given new state. -/
def countState (mods : List (ℕ × State)) (s : State) : ℕ :=
  mods.countP (fun p => decide (p.2 = s))

/-- The incremental column update of `collect_statistics`:
`E[t] = E[t-1] + nE - nI`, `I[t] = I[t-1] + nI - nR`,
`R[t] = R[t-1] + nR`, where `nE`, `nI`, `nR` are the
`total_nodes_modified` entries tallied from the step's transition
map. -/
def nextStats (prev : ℤ × ℤ × ℤ) (mods : List (ℕ × State)) : ℤ × ℤ × ℤ :=
  (prev.1 + (countState mods State.EXPOSED : ℤ) - (countState mods State.INFECTED : ℤ),
   prev.2.1 + (countState mods State.INFECTED : ℤ) - (countState mods State.RECOVERED : ℤ),
   prev.2.2 + (countState mods State.RECOVERED : ℤ))

/-- The `for tau in range(1, num_iterations+1)` loop of
`ContactNetwork.collect_statistics`: each step extends the statistics
with `(E, I, R)` counts updated incrementally from the per-step
transition map.  Counts are integers (the numpy matrix holds exact
small integral floats). -/
def statsLoop : ContactNetwork → ℤ × ℤ × ℤ → List ((ℕ → ℚ) × (ℕ → ℚ) × (ℕ → ℚ)) →
    Except Unit (List (ℤ × ℤ × ℤ))
  | _, _, [] => .ok []
  | cn, prev, s :: rest =>
    match update cn s.1 s.2.1 s.2.2 with
    | .error u => .error u
    | .ok (cn', mods) =>
      match statsLoop cn' (nextStats prev mods) rest with
      | .error u => .error u
      | .ok stats => .ok (nextStats prev mods :: stats)

/-- `ContactNetwork.collect_statistics(infected_nodes, num_iterations)`:
seed the infected nodes, set column 0 to `(0, len(infected_nodes), 0)`,
then accumulate the incremental `(E, I, R)` counts for each step.  The
result lists the columns `t = 0, ..., num_iterations` of the returned
matrix. -/
def collect_statistics (cn : ContactNetwork) (infected_nodes : List ℕ)
    (samples : List ((ℕ → ℚ) × (ℕ → ℚ) × (ℕ → ℚ))) : Except Unit (List (ℤ × ℤ × ℤ)) :=
  match seedNodes cn infected_nodes with
  | (_, some _) => .error ()
  | (cn0, none) =>
    match statsLoop cn0 (0, (infected_nodes.length : ℤ), 0) samples with
    | .error u => .error u
    | .ok stats => .ok ((0, (infected_nodes.length : ℤ), 0) :: stats)

/-- Number of nodes of the network currently in state `s`. -/
def stateCount (cn : ContactNetwork) (s : State) : ℕ :=
  cn.nodes.countP (fun n => decide (cn.state n = s))

/-- Proof device: the entry that the scan loop of `_update` records in
`modified_node_states` for one node, as a function of the pre-step
snapshot. -/
def pendingChange (cn : ContactNetwork) (recS expS incS : ℕ → ℚ) (n : ℕ) :
    Option (ℕ × State) :=
  match decision cn n (recS n) (expS n) (incS n) with
  | .ok (some s) => some (n, s)
  | _ => none

end ContactNetwork

/-! Concrete inputs used by witnesses and counterexamples: a two-node
graph with an edge of weight `1/2`, the same graph with the weight
attribute missing, and a single isolated node.  The sample maps stand
for concrete draws of the three distributions (recovery and incubation
samples of `100` keep those transitions from firing; the exposure
samples `3/10`, `1/2` and `0` are all in the clamped range `[0, 1]` of
`sampleExposureDistribution`). -/

def gW : Graph :=
  { nodes := [0, 1]
    adj := fun a b => (a == 0 && b == 1) || (a == 1 && b == 0)
    weight := fun _ _ => some (1/2) }

def gC7 : Graph :=
  { nodes := [0, 1]
    adj := fun a b => (a == 0 && b == 1) || (a == 1 && b == 0)
    weight := fun _ _ => none }

def gI : Graph :=
  { nodes := [0]
    adj := fun _ _ => false
    weight := fun _ _ => none }

def rW : ℕ → ℚ := fun _ => 100

def eW : ℕ → ℚ := fun _ => 3/10

def iW : ℕ → ℚ := fun _ => 100

def eZ : ℕ → ℚ := fun _ => 0

def eP : ℕ → ℚ := fun _ => 1/2

def cnW : ContactNetwork := (ContactNetwork.seedNodes (ContactNetwork.init gW) [1]).1

def cnC7 : ContactNetwork := (ContactNetwork.seedNodes (ContactNetwork.init gC7) [1]).1

def cnI : ContactNetwork := ContactNetwork.init gI

def netW1 : ContactNetwork :=
  match ContactNetwork.update cnW rW eW iW with
  | .ok p => p.1
  | .error _ => cnW

def modsW1 : List (ℕ × ContactNetwork.State) :=
  match ContactNetwork.update cnW rW eW iW with
  | .ok p => p.2
  | .error _ => []

def netW2 : ContactNetwork :=
  match ContactNetwork.update netW1 rW eW iW with
  | .ok p => p.1
  | .error _ => netW1

def modsW2 : List (ℕ × ContactNetwork.State) :=
  match ContactNetwork.update netW1 rW eW iW with
  | .ok p => p.2
  | .error _ => []

def netI : ContactNetwork :=
  match ContactNetwork.update cnI rW eZ iW with
  | .ok p => p.1
  | .error _ => cnI

def modsI : List (ℕ × ContactNetwork.State) :=
  match ContactNetwork.update cnI rW eZ iW with
  | .ok p => p.2
  | .error _ => []

def netIok : ContactNetwork :=
  match ContactNetwork.runSteps cnI [(rW, eP, iW), (rW, eP, iW)] with
  | .ok c => c
  | .error _ => cnI

def statsW9 : List (ℤ × ℤ × ℤ) :=
  match ContactNetwork.collect_statistics (ContactNetwork.init gW) [1] [(rW, eW, iW)] with
  | .ok s => s
  | .error _ => []

namespace Probability

lemma list_prod_nonneg {l : List ℚ} (h : ∀ y ∈ l, 0 ≤ y) : 0 ≤ l.prod := by
  induction l with
  | nil => simp
  | cons a t ih =>
    simp only [List.prod_cons]
    have ha := h a (List.mem_cons_self a t)
    have ht : 0 ≤ t.prod := ih (fun y hy => h y (List.mem_cons_of_mem a hy))
    exact mul_nonneg ha ht

lemma list_prod_le_one {l : List ℚ} (h : ∀ y ∈ l, 0 ≤ y ∧ y ≤ 1) : l.prod ≤ 1 := by
  induction l with
  | nil => simp
  | cons a t ih =>
    simp only [List.prod_cons]
    have ha := h a (List.mem_cons_self a t)
    have ht₁ : t.prod ≤ 1 := ih (fun y hy => h y (List.mem_cons_of_mem a hy))
    have ht₀ : 0 ≤ t.prod := list_prod_nonneg (fun y hy => (h y (List.mem_cons_of_mem a hy)).1)
    calc a * t.prod ≤ 1 * 1 := mul_le_mul ha.2 ht₁ ht₀ zero_le_one
    _ = 1 := one_mul 1

lemma list_prod_le_of_mem {l : List ℚ} (h : ∀ y ∈ l, 0 ≤ y ∧ y ≤ 1) {x : ℚ}
    (hx : x ∈ l) : l.prod ≤ x := by
  induction l with
  | nil => cases hx
  | cons a t ih =>
    rcases List.mem_cons.mp hx with rfl | hx'
    · simp only [List.prod_cons]
      have ht₁ : t.prod ≤ 1 := list_prod_le_one (fun y hy => h y (List.mem_cons_of_mem x hy))
      have ht₀ : 0 ≤ t.prod := list_prod_nonneg (fun y hy => (h y (List.mem_cons_of_mem x hy)).1)
      calc x * t.prod ≤ x * 1 :=
        mul_le_mul_of_nonneg_left ht₁ (h x (List.mem_cons_self x t)).1
      _ = x := mul_one x
    · simp only [List.prod_cons]
      have ha := h a (List.mem_cons_self a t)
      have iht : t.prod ≤ x := ih (fun y hy => h y (List.mem_cons_of_mem a hy)) hx'
      have ht₀ : 0 ≤ t.prod := list_prod_nonneg (fun y hy => (h y (List.mem_cons_of_mem a hy)).1)
      calc a * t.prod ≤ 1 * t.prod := mul_le_mul_of_nonneg_right ha.2 ht₀
      _ = t.prod := one_mul _
      _ ≤ x := iht

end Probability

/-- C6: for a non-empty list of probabilities in `[0, 1]`,
`unionProbability` is at least every element (hence at least the
maximum) and at most 1; it equals `p` on a singleton `[p]`, is
invariant under permutation of its input, returns `0` on the empty
list, and `jointProbability` returns the multiplicative identity `1`
on the empty list. -/
theorem c6_unionProbability_properties (e : List ℚ) (he : e ≠ [])
    (hb : ∀ x ∈ e, 0 ≤ x ∧ x ≤ 1) :
    (∀ x ∈ e, x ≤ Probability.unionProbability e) ∧
    Probability.unionProbability e ≤ 1 ∧
    (∀ p : ℚ, Probability.unionProbability [p] = p) ∧
    (∀ f : List ℚ, e.Perm f → Probability.unionProbability e = Probability.unionProbability f) ∧
    Probability.unionProbability [] = 0 ∧
    Probability.jointProbability [] = 1 := by
  have hmapb : ∀ y ∈ e.map (fun x => 1 - x), 0 ≤ y ∧ y ≤ 1 := by
    intro y hy
    rcases List.mem_map.mp hy with ⟨x, hx, rfl⟩
    have := hb x hx
    constructor <;> linarith [this.1, this.2]
  refine ⟨?_, ?_, ?_, ?_, ?_, ?_⟩
  · intro x hx
    have hmem : (1 - x) ∈ e.map (fun x => 1 - x) := List.mem_map.mpr ⟨x, hx, rfl⟩
    have := Probability.list_prod_le_of_mem hmapb hmem
    simp only [Probability.unionProbability, Probability.jointProbability]
    linarith
  · have := Probability.list_prod_nonneg (fun y hy => (hmapb y hy).1)
    simp only [Probability.unionProbability, Probability.jointProbability]
    linarith
  · intro p
    simp [Probability.unionProbability, Probability.jointProbability]
  · intro f hp
    have : (e.map (fun x => 1 - x)).Perm (f.map (fun x => 1 - x)) := hp.map _
    simp only [Probability.unionProbability, Probability.jointProbability, this.prod_eq]
  · simp [Probability.unionProbability, Probability.jointProbability]
  · simp [Probability.jointProbability]

/-- Witness for C6 at the concrete input `[1/2, 2/3]`. -/
theorem c6_unionProbability_properties_witness :
    ([(1:ℚ)/2, 2/3] ≠ []) ∧ (∀ x ∈ [(1:ℚ)/2, 2/3], 0 ≤ x ∧ x ≤ 1) ∧
    ((∀ x ∈ [(1:ℚ)/2, 2/3], x ≤ Probability.unionProbability [(1:ℚ)/2, 2/3]) ∧
     Probability.unionProbability [(1:ℚ)/2, 2/3] ≤ 1 ∧
     (∀ p : ℚ, Probability.unionProbability [p] = p) ∧
     (∀ f : List ℚ, ([(1:ℚ)/2, 2/3]).Perm f →
       Probability.unionProbability [(1:ℚ)/2, 2/3] = Probability.unionProbability f) ∧
     Probability.unionProbability [] = 0 ∧
     Probability.jointProbability [] = 1) :=
  ⟨by decide, by decide, c6_unionProbability_properties _ (by decide) (by decide)⟩

namespace Probability

lemma esymm_zero (l : List ℚ) : esymm 0 l = 1 := by
  cases l <;> simp [esymm]

lemma esymm_succ_nil (r : ℕ) : esymm (r + 1) [] = 0 := by
  simp [esymm]

lemma esymm_succ_cons (r : ℕ) (a : ℚ) (l : List ℚ) :
    esymm (r + 1) (a :: l) = esymm (r + 1) l + a * esymm r l := by
  simp [esymm]

lemma esymm_eq_zero_of_length_lt : ∀ (l : List ℚ) (r : ℕ), l.length < r → esymm r l = 0 := by
  intro l
  induction l with
  | nil =>
    intro r h
    cases r with
    | zero => omega
    | succ r' => rfl
  | cons a t ih =>
    intro r h
    cases r with
    | zero => omega
    | succ r' =>
      have h1 : t.length < r' + 1 := by simp at h; omega
      have h2 : t.length < r' := by simp at h; omega
      rw [esymm_succ_cons, ih _ h1, ih _ h2]
      ring

lemma esymm_one_eq_sum : ∀ l : List ℚ, esymm 1 l = l.sum := by
  intro l
  induction l with
  | nil => simp [esymm]
  | cons a t ih =>
    rw [show (1 : ℕ) = 0 + 1 by rfl] at ih ⊢
    rw [esymm_succ_cons, ih, esymm_zero, List.sum_cons]
    ring

lemma esymm_succ_expand : ∀ (l : List ℚ) (r : ℕ),
    esymm (r + 1) l = ∑ i in Finset.range l.length, l.getD i 0 * esymm r (l.drop (i + 1)) := by
  intro l
  induction l with
  | nil => intro r; simp [esymm_succ_nil]
  | cons a t ih =>
    intro r
    rw [esymm_succ_cons, ih r]
    rw [List.length_cons, Finset.sum_range_succ']
    simp only [List.getD_cons_succ, List.getD_cons_zero, List.drop_succ_cons,
      List.drop_zero]

lemma map_getD_range : ∀ l : List ℚ, (List.range l.length).map (fun i => l.getD i 0) = l := by
  intro l
  induction l with
  | nil => rfl
  | cons a t ih =>
    rw [List.length_cons, List.range_succ_eq_map, List.map_cons, List.map_map]
    have hfun : ∀ i ∈ List.range t.length,
        ((fun i => (a :: t).getD i 0) ∘ Nat.succ) i = t.getD i 0 := by
      intro i _
      simp [Function.comp]
    rw [List.map_congr_left hfun, ih]
    simp

lemma prevVec_one (e : List ℚ) (he : e ≠ []) : prevVec e 1 = e := by
  have hn : e.length - 1 + 1 = e.length := by
    have := List.length_pos.mpr he
    omega
  rw [prevVec, hn]
  have : (List.range e.length).map (fun i => e.getD i 0 * esymm (1 - 1) (e.drop (i + 1))) =
      (List.range e.length).map (fun i => e.getD i 0) :=
    List.map_congr_left (fun i _ => by rw [show (1 : ℕ) - 1 = 0 by rfl, esymm_zero]; ring)
  rw [this, map_getD_range]

lemma sum_drop_map_range : ∀ (m : ℕ) (f : ℕ → ℚ) (i : ℕ),
    (((List.range m).map f).drop i).sum = ∑ k in Finset.Ico i m, f k := by
  intro m
  induction m with
  | zero => intro f i; simp
  | succ m ih =>
    intro f i
    rw [List.range_succ, List.map_append, List.drop_append_eq_append_drop, List.sum_append]
    simp only [List.map_cons, List.map_nil]
    have hlen : ((List.range m).map f).length = m := by simp
    by_cases h : i ≤ m
    · have h0 : i - ((List.range m).map f).length = 0 := by omega
      rw [h0]
      simp only [List.drop_zero, List.sum_cons, List.sum_nil]
      rw [ih f i, Finset.sum_Ico_succ_top h]
      ring
    · have h1 : ((List.range m).map f).length ≤ i := by omega
      rw [List.drop_eq_nil_of_le h1]
      have h2 : ([f m] : List ℚ).length ≤ i - ((List.range m).map f).length := by
        simp only [List.length_cons, List.length_nil]
        omega
      rw [List.drop_eq_nil_of_le h2]
      have h3 : Finset.Ico i (m + 1) = ∅ := by
        apply Finset.Ico_eq_empty
        omega
      rw [h3]
      simp

lemma getD_drop (l : List ℚ) (i j : ℕ) : (l.drop i).getD j 0 = l.getD (i + j) 0 := by
  rw [List.getD_eq_getElem?_getD, List.getD_eq_getElem?_getD, List.getElem?_drop]

lemma esymm_trunc_expand (e : List ℚ) (r m : ℕ) (hr : 1 ≤ r)
    (hm : e.length - r + 1 ≤ m) :
    ∑ k in Finset.range m, e.getD k 0 * esymm (r - 1) (e.drop (k + 1)) = esymm r e := by
  set n := e.length with hn
  set M := max m n with hM
  have hsub1 : Finset.range m ⊆ Finset.range M := Finset.range_subset.mpr (le_max_left m n)
  have hsub2 : Finset.range n ⊆ Finset.range M := Finset.range_subset.mpr (le_max_right m n)
  have hvanish : ∀ k, m ≤ k ∨ n ≤ k → e.getD k 0 * esymm (r - 1) (e.drop (k + 1)) = 0 := by
    intro k hk
    by_cases hkn : k < n
    · have hkm : m ≤ k := by omega
      have hlen : (e.drop (k + 1)).length < r - 1 := by
        rw [List.length_drop]
        omega
      rw [esymm_eq_zero_of_length_lt _ _ hlen]
      ring
    · rw [List.getD_eq_default _ _ (by omega)]
      ring
  have h1 : ∑ k in Finset.range m, e.getD k 0 * esymm (r - 1) (e.drop (k + 1)) =
      ∑ k in Finset.range M, e.getD k 0 * esymm (r - 1) (e.drop (k + 1)) :=
    Finset.sum_subset hsub1 (fun k _ hk => hvanish k (Or.inl (by
      simpa [Finset.mem_range, not_lt] using hk)))
  have h2 : ∑ k in Finset.range n, e.getD k 0 * esymm (r - 1) (e.drop (k + 1)) =
      ∑ k in Finset.range M, e.getD k 0 * esymm (r - 1) (e.drop (k + 1)) :=
    Finset.sum_subset hsub2 (fun k _ hk => hvanish k (Or.inr (by
      simpa [Finset.mem_range, not_lt] using hk)))
  rw [h1, ← h2]
  have hr' : r - 1 + 1 = r := by omega
  conv_rhs => rw [← hr']
  rw [esymm_succ_expand]

lemma prevVec_sum (e : List ℚ) (r : ℕ) (hr : 1 ≤ r) : (prevVec e r).sum = esymm r e := by
  have h0 : (prevVec e r).sum = ((prevVec e r).drop 0).sum := by rw [List.drop_zero]
  rw [prevVec] at h0 ⊢
  rw [h0, sum_drop_map_range]
  rw [← Finset.range_eq_Ico]
  exact esymm_trunc_expand e r _ hr (le_refl _)

lemma prevVec_drop_sum (e : List ℚ) (r i : ℕ) (hr : 1 ≤ r) (hi : i < e.length - r) :
    ((prevVec e r).drop (i + 1)).sum = esymm r (e.drop (i + 1)) := by
  rw [prevVec, sum_drop_map_range, Finset.sum_Ico_eq_sum_range]
  have hext : ∑ j in Finset.range (e.length - r + 1 - (i + 1)),
        e.getD (i + 1 + j) 0 * esymm (r - 1) (e.drop (i + 1 + j + 1)) =
      ∑ j in Finset.range (e.length - (i + 1)),
        e.getD (i + 1 + j) 0 * esymm (r - 1) (e.drop (i + 1 + j + 1)) := by
    apply Finset.sum_subset (Finset.range_subset.mpr (by omega))
    intro j hj hj'
    have hj1 : j < e.length - (i + 1) := Finset.mem_range.mp hj
    have hj2 : e.length - r + 1 - (i + 1) ≤ j := by
      by_contra hcon
      exact hj' (Finset.mem_range.mpr (by omega))
    have hlen3 : (e.drop (i + 1 + j + 1)).length < r - 1 := by
      rw [List.length_drop]
      omega
    rw [esymm_eq_zero_of_length_lt _ _ hlen3]
    ring
  rw [hext]
  have hr' : r - 1 + 1 = r := by omega
  conv_rhs => rw [← hr']
  rw [esymm_succ_expand, List.length_drop]
  apply Finset.sum_congr rfl
  intro j _
  rw [getD_drop, List.drop_drop]
  have harith : i + 1 + (j + 1) = i + 1 + j + 1 := by omega
  rw [harith]

lemma millersStep_prevVec (e : List ℚ) (r : ℕ) (hr : 1 ≤ r) (hrn : r + 1 ≤ e.length) :
    millersStep e (prevVec e r) = prevVec e (r + 1) := by
  have hlen : (prevVec e r).length = e.length - r + 1 := by simp [prevVec]
  have hlen1 : (prevVec e r).length - 1 = e.length - r := by omega
  have hlen2 : e.length - (r + 1) + 1 = e.length - r := by omega
  rw [millersStep, hlen1]
  conv_rhs => rw [prevVec, hlen2]
  apply List.map_congr_left
  intro i hi
  have hi' : i < e.length - r := List.mem_range.mp hi
  rw [prevVec_drop_sum e r i hr hi']
  have h1 : r + 1 - 1 = r := by omega
  rw [h1]

lemma millersLoop_inv (e : List ℚ) : ∀ (k r : ℕ) (res : ℚ), 1 ≤ r → r + k ≤ e.length →
    millersLoop e (prevVec e r) res ((-1) ^ r) k =
      res + ∑ j in Finset.range k, (-1 : ℚ) ^ (r + j) * esymm (r + j + 1) e := by
  intro k
  induction k with
  | zero =>
    intro r res _ _
    simp [millersLoop]
  | succ k ih =>
    intro r res hr hrk
    rw [millersLoop]
    have hstep : millersStep e (prevVec e r) = prevVec e (r + 1) :=
      millersStep_prevVec e r hr (by omega)
    have hsum : (prevVec e (r + 1)).sum = esymm (r + 1) e :=
      prevVec_sum e (r + 1) (by omega)
    have hsign : -((-1 : ℚ) ^ r) = (-1) ^ (r + 1) := by
      rw [pow_succ]
      ring
    rw [hstep, hsum, hsign, ih (r + 1) _ (by omega) (by omega)]
    rw [Finset.sum_range_succ']
    have hterm : ∀ j, (-1 : ℚ) ^ (r + 1 + j) * esymm (r + 1 + j + 1) e =
        (-1 : ℚ) ^ (r + (j + 1)) * esymm (r + (j + 1) + 1) e := by
      intro j
      have h1 : r + 1 + j = r + (j + 1) := by omega
      rw [h1]
    rw [Finset.sum_congr rfl (fun j _ => hterm j)]
    have h0 : (-1 : ℚ) ^ (r + 0) * esymm (r + 0 + 1) e = (-1) ^ r * esymm (r + 1) e := by
      norm_num
    rw [h0]
    ring

lemma signed_esymm_sum : ∀ e : List ℚ,
    (e.map (fun x => 1 - x)).prod =
      ∑ r in Finset.range (e.length + 1), (-1 : ℚ) ^ r * esymm r e := by
  intro e
  induction e with
  | nil => simp [esymm_zero]
  | cons a t ih =>
    have hRHS : ∑ r in Finset.range (t.length + 1 + 1), (-1 : ℚ) ^ r * esymm r (a :: t) =
        ∑ r in Finset.range (t.length + 1), (-1 : ℚ) ^ (r + 1) * esymm (r + 1) (a :: t) + 1 := by
      rw [Finset.sum_range_succ' (fun r => (-1 : ℚ) ^ r * esymm r (a :: t)) (t.length + 1)]
      rw [esymm_zero]
      norm_num
    have hterm : ∀ r, (-1 : ℚ) ^ (r + 1) * esymm (r + 1) (a :: t) =
        (-1 : ℚ) ^ (r + 1) * esymm (r + 1) t + (-1 : ℚ) ^ (r + 1) * a * esymm r t := by
      intro r
      rw [esymm_succ_cons]
      ring
    have h1 : ∑ r in Finset.range (t.length + 1), (-1 : ℚ) ^ (r + 1) * esymm (r + 1) t =
        (∑ r in Finset.range (t.length + 1 + 1), (-1 : ℚ) ^ r * esymm r t) - 1 := by
      rw [Finset.sum_range_succ' (fun r => (-1 : ℚ) ^ r * esymm r t) (t.length + 1)]
      rw [esymm_zero]
      norm_num
    have h2 : ∑ r in Finset.range (t.length + 1 + 1), (-1 : ℚ) ^ r * esymm r t =
        ∑ r in Finset.range (t.length + 1), (-1 : ℚ) ^ r * esymm r t := by
      rw [Finset.sum_range_succ]
      rw [esymm_eq_zero_of_length_lt t (t.length + 1) (by omega)]
      ring
    have h3 : ∑ r in Finset.range (t.length + 1), (-1 : ℚ) ^ (r + 1) * a * esymm r t =
        -a * ∑ r in Finset.range (t.length + 1), (-1 : ℚ) ^ r * esymm r t := by
      rw [Finset.mul_sum]
      apply Finset.sum_congr rfl
      intro r _
      rw [pow_succ]
      ring
    rw [List.map_cons, List.prod_cons, ih, List.length_cons, hRHS]
    rw [Finset.sum_congr rfl (fun r _ => hterm r), Finset.sum_add_distrib, h1, h2, h3]
    ring

end Probability

/-- C10: on every non-empty list of probabilities, `millers_algorithm`
(the inclusion–exclusion expansion computed by Miller's recurrence)
returns exactly the same value as `unionProbability` (the
complement-of-joint-non-occurrence formula `1 - ∏ (1 - x)`), in exact
rational arithmetic. -/
theorem c10_millers_algorithm_eq_unionProbability (e : List ℚ) (he : e ≠ []) :
    Probability.millers_algorithm e = Probability.unionProbability e := by
  have hn : 1 ≤ e.length := List.length_pos.mpr he
  have hloop := Probability.millersLoop_inv e (e.length - 1) 1 e.sum (le_refl 1) (by omega)
  rw [Probability.prevVec_one e he, pow_one] at hloop
  rw [Probability.millers_algorithm, hloop]
  rw [Probability.unionProbability, Probability.jointProbability,
    Probability.signed_esymm_sum e]
  have hRHS : ∑ r in Finset.range (e.length + 1), (-1 : ℚ) ^ r * Probability.esymm r e =
      ∑ r in Finset.range e.length, (-1 : ℚ) ^ (r + 1) * Probability.esymm (r + 1) e + 1 := by
    rw [Finset.sum_range_succ' (fun r => (-1 : ℚ) ^ r * Probability.esymm r e) e.length]
    rw [Probability.esymm_zero]
    norm_num
  have hpeel : ∑ r in Finset.range e.length, (-1 : ℚ) ^ (r + 1) * Probability.esymm (r + 1) e =
      ∑ j in Finset.range (e.length - 1),
          (-1 : ℚ) ^ (j + 1 + 1) * Probability.esymm (j + 1 + 1) e +
        (-1 : ℚ) ^ (0 + 1) * Probability.esymm (0 + 1) e := by
    have hlen : e.length = e.length - 1 + 1 := by omega
    conv_lhs => rw [hlen]
    exact Finset.sum_range_succ' (fun r => (-1 : ℚ) ^ (r + 1) * Probability.esymm (r + 1) e) _
  have hflip : ∑ j in Finset.range (e.length - 1),
        (-1 : ℚ) ^ (1 + j) * Probability.esymm (1 + j + 1) e =
      -∑ j in Finset.range (e.length - 1),
        (-1 : ℚ) ^ (j + 1 + 1) * Probability.esymm (j + 1 + 1) e := by
    rw [← Finset.sum_neg_distrib]
    apply Finset.sum_congr rfl
    intro j _
    have h1 : 1 + j = j + 1 := by omega
    rw [h1]
    ring
  rw [hRHS, hpeel, hflip]
  have h01 : (0 : ℕ) + 1 = 1 := rfl
  rw [h01, Probability.esymm_one_eq_sum, pow_one]
  ring

/-- Witness for C10 at the concrete input `[1/2, 1/3, 1/5]`. -/
theorem c10_millers_algorithm_eq_unionProbability_witness :
    ([(1:ℚ)/2, 1/3, 1/5] ≠ []) ∧
      Probability.millers_algorithm [(1:ℚ)/2, 1/3, 1/5] =
        Probability.unionProbability [(1:ℚ)/2, 1/3, 1/5] :=
  ⟨by decide, c10_millers_algorithm_eq_unionProbability _ (by decide)⟩

namespace ContactNetwork

lemma change_node_state_fields (cn : ContactNetwork) (node : ℕ) (s : State) :
    (cn.change_node_state node s).nodes = cn.nodes ∧
    (cn.change_node_state node s).adj = cn.adj ∧
    (cn.change_node_state node s).weight = cn.weight ∧
    (cn.change_node_state node s).tau = cn.tau :=
  ⟨rfl, rfl, rfl, rfl⟩

lemma change_node_state_state (cn : ContactNetwork) (node : ℕ) (s : State) (m : ℕ) :
    (cn.change_node_state node s).state m = if m = node then s else cn.state m := rfl

lemma change_node_state_time (cn : ContactNetwork) (node : ℕ) (s : State) (m : ℕ) :
    (cn.change_node_state node s).time_changed_state m =
      if m = node then cn.tau else cn.time_changed_state m := rfl

lemma applyMods_fields : ∀ (mods : List (ℕ × State)) (cn : ContactNetwork),
    (applyMods cn mods).nodes = cn.nodes ∧
    (applyMods cn mods).adj = cn.adj ∧
    (applyMods cn mods).weight = cn.weight ∧
    (applyMods cn mods).tau = cn.tau := by
  intro mods
  induction mods with
  | nil => intro cn; exact ⟨rfl, rfl, rfl, rfl⟩
  | cons p rest ih =>
    intro cn
    have h := ih (cn.change_node_state p.1 p.2)
    exact ⟨h.1, h.2.1, h.2.2.1, h.2.2.2⟩

lemma applyMods_not_mem : ∀ (mods : List (ℕ × State)) (cn : ContactNetwork) (n : ℕ),
    n ∉ mods.map Prod.fst →
    (applyMods cn mods).state n = cn.state n ∧
    (applyMods cn mods).time_changed_state n = cn.time_changed_state n := by
  intro mods
  induction mods with
  | nil => intro cn n _; exact ⟨rfl, rfl⟩
  | cons p rest ih =>
    intro cn n hn
    have hne : n ≠ p.1 := by
      intro heq
      exact hn (by simp [heq])
    have hrest : n ∉ rest.map Prod.fst := by
      intro hmem
      exact hn (by simp [hmem])
    have h := ih (cn.change_node_state p.1 p.2) n hrest
    rw [applyMods, List.foldl_cons] at *
    refine ⟨h.1.trans ?_, h.2.trans ?_⟩
    · rw [change_node_state_state, if_neg hne]
    · rw [change_node_state_time, if_neg hne]

lemma applyMods_mem : ∀ (mods : List (ℕ × State)) (cn : ContactNetwork) (n : ℕ) (s : State),
    (mods.map Prod.fst).Nodup → (n, s) ∈ mods →
    (applyMods cn mods).state n = s ∧
    (applyMods cn mods).time_changed_state n = cn.tau := by
  intro mods
  induction mods with
  | nil => intro cn n s _ h; cases h
  | cons p rest ih =>
    intro cn n s hnd hmem
    have hnd1 : (rest.map Prod.fst).Nodup := (List.nodup_cons.mp hnd).2
    have hp1 : p.1 ∉ rest.map Prod.fst := (List.nodup_cons.mp hnd).1
    rcases List.mem_cons.mp hmem with heq | hmem'
    · subst heq
      have hnotin : n ∉ rest.map Prod.fst := hp1
      have h := applyMods_not_mem rest (cn.change_node_state n s) n hnotin
      rw [applyMods, List.foldl_cons]
      refine ⟨h.1.trans ?_, h.2.trans ?_⟩
      · rw [change_node_state_state, if_pos rfl]
      · rw [change_node_state_time, if_pos rfl]
    · have h := ih (cn.change_node_state p.1 p.2) n s hnd1 hmem'
      rw [applyMods, List.foldl_cons]
      have htau : (cn.change_node_state p.1 p.2).tau = cn.tau := rfl
      exact ⟨h.1, h.2.trans htau⟩

lemma pendingChange_eq_some {cn : ContactNetwork} {r e i : ℕ → ℚ} {x : ℕ} {p : ℕ × State} :
    pendingChange cn r e i x = some p ↔
      x = p.1 ∧ decision cn x (r x) (e x) (i x) = .ok (some p.2) := by
  rcases p with ⟨pn, ps⟩
  rw [pendingChange]
  rcases hd : decision cn x (r x) (e x) (i x) with u | o
  · simp
  · cases o with
    | none => simp
    | some s =>
      simp only [Option.some_inj, Prod.mk.injEq]
      constructor
      · rintro ⟨rfl, rfl⟩
        exact ⟨rfl, rfl⟩
      · rintro ⟨rfl, h2⟩
        injection h2 with h3
        injection h3 with h4
        exact ⟨rfl, h4⟩

lemma computeModified_eq_filterMap {cn : ContactNetwork} {r e i : ℕ → ℚ} :
    ∀ {l : List ℕ} {mods : List (ℕ × State)},
    computeModified cn r e i l = .ok mods → mods = l.filterMap (pendingChange cn r e i) := by
  intro l
  induction l with
  | nil =>
    intro mods h
    rw [computeModified] at h
    cases h
    rfl
  | cons n ns ih =>
    intro mods h
    rw [computeModified] at h
    rw [List.filterMap_cons]
    rcases hd : decision cn n (r n) (e n) (i n) with u | o
    · rw [hd] at h
      cases h
    · rw [hd] at h
      cases o with
      | none =>
        have hpc : pendingChange cn r e i n = none := by
          rw [pendingChange, hd]
        rw [hpc]
        exact ih h
      | some s =>
        have hpc : pendingChange cn r e i n = some (n, s) := by
          rw [pendingChange, hd]
        rw [hpc]
        rcases hrest : computeModified cn r e i ns with u | rest
        · rw [hrest] at h
          cases h
        · rw [hrest] at h
          cases h
          rw [ih hrest]

lemma computeModified_ok_decision {cn : ContactNetwork} {r e i : ℕ → ℚ} :
    ∀ {l : List ℕ} {mods : List (ℕ × State)},
    computeModified cn r e i l = .ok mods →
    ∀ n ∈ l, ∃ o, decision cn n (r n) (e n) (i n) = .ok o := by
  intro l
  induction l with
  | nil => intro mods _ n hn; cases hn
  | cons m ns ih =>
    intro mods h n hn
    rw [computeModified] at h
    rcases hd : decision cn m (r m) (e m) (i m) with u | o
    · rw [hd] at h
      cases h
    · rw [hd] at h
      rcases List.mem_cons.mp hn with rfl | hn'
      · exact ⟨o, hd⟩
      · cases o with
        | none => exact ih h n hn'
        | some s =>
          rcases hrest : computeModified cn r e i ns with u | rest
          · rw [hrest] at h
            cases h
          · exact ih hrest n hn'

lemma computeModified_error_of_mem {cn : ContactNetwork} {r e i : ℕ → ℚ} :
    ∀ {l : List ℕ} {n : ℕ}, n ∈ l → decision cn n (r n) (e n) (i n) = .error () →
    computeModified cn r e i l = .error () := by
  intro l
  induction l with
  | nil => intro n hn _; cases hn
  | cons m ns ih =>
    intro n hn hd
    rw [computeModified]
    rcases List.mem_cons.mp hn with rfl | hn'
    · rw [hd]
    · rcases hdm : decision cn m (r m) (e m) (i m) with u | o
      · cases u
        rfl
      · cases o with
        | none => exact ih hn' hd
        | some s =>
          rw [ih hn' hd]

lemma filterMap_pending_keys_sublist {cn : ContactNetwork} {r e i : ℕ → ℚ} :
    ∀ l : List ℕ, ((l.filterMap (pendingChange cn r e i)).map Prod.fst).Sublist l := by
  intro l
  induction l with
  | nil => simp
  | cons n ns ih =>
    rw [List.filterMap_cons]
    rcases hpc : pendingChange cn r e i n with _ | p
    · exact ih.cons n
    · have hn : p.1 = n := (pendingChange_eq_some.mp hpc).1.symm
      rw [List.map_cons, hn]
      exact ih.cons₂ n

lemma mem_filterMap_pending {cn : ContactNetwork} {r e i : ℕ → ℚ} {l : List ℕ}
    {n : ℕ} {s : State} :
    (n, s) ∈ l.filterMap (pendingChange cn r e i) ↔
      n ∈ l ∧ decision cn n (r n) (e n) (i n) = .ok (some s) := by
  rw [List.mem_filterMap]
  constructor
  · rintro ⟨x, hx, hpc⟩
    obtain ⟨hx1, hd⟩ := pendingChange_eq_some.mp hpc
    subst hx1
    exact ⟨hx, hd⟩
  · rintro ⟨hn, hd⟩
    exact ⟨n, hn, pendingChange_eq_some.mpr ⟨rfl, hd⟩⟩

lemma update_eq_ok {cn : ContactNetwork} {r e i : ℕ → ℚ} {mods : List (ℕ × State)}
    (h : computeModified cn r e i cn.nodes = .ok mods) :
    update cn r e i = .ok ({ applyMods cn mods with tau := cn.tau + 1 }, mods) := by
  rw [update, h]

lemma update_ok_elim {cn : ContactNetwork} {r e i : ℕ → ℚ} {net' : ContactNetwork}
    {mods : List (ℕ × State)} (h : update cn r e i = .ok (net', mods)) :
    computeModified cn r e i cn.nodes = .ok mods ∧
      net' = { applyMods cn mods with tau := cn.tau + 1 } := by
  rw [update] at h
  rcases hc : computeModified cn r e i cn.nodes with u | m
  · rw [hc] at h
    cases h
  · rw [hc] at h
    cases h
    exact ⟨rfl, rfl⟩

lemma update_fields {cn : ContactNetwork} {r e i : ℕ → ℚ} {net' : ContactNetwork}
    {mods : List (ℕ × State)} (h : update cn r e i = .ok (net', mods)) :
    net'.nodes = cn.nodes ∧ net'.adj = cn.adj ∧ net'.weight = cn.weight ∧
      net'.tau = cn.tau + 1 := by
  rcases update_ok_elim h with ⟨_, rfl⟩
  have hf := applyMods_fields mods cn
  exact ⟨hf.1, hf.2.1, hf.2.2.1, rfl⟩

lemma update_mods_eq {cn : ContactNetwork} {r e i : ℕ → ℚ} {net' : ContactNetwork}
    {mods : List (ℕ × State)} (h : update cn r e i = .ok (net', mods)) :
    mods = cn.nodes.filterMap (pendingChange cn r e i) :=
  computeModified_eq_filterMap (update_ok_elim h).1

lemma update_mods_mem {cn : ContactNetwork} {r e i : ℕ → ℚ} {net' : ContactNetwork}
    {mods : List (ℕ × State)} (h : update cn r e i = .ok (net', mods)) {n : ℕ} {s : State} :
    (n, s) ∈ mods ↔ n ∈ cn.nodes ∧ decision cn n (r n) (e n) (i n) = .ok (some s) := by
  rw [update_mods_eq h]
  exact mem_filterMap_pending

lemma update_keys_nodup {cn : ContactNetwork} {r e i : ℕ → ℚ} {net' : ContactNetwork}
    {mods : List (ℕ × State)} (hnd : cn.nodes.Nodup)
    (h : update cn r e i = .ok (net', mods)) : (mods.map Prod.fst).Nodup := by
  rw [update_mods_eq h]
  exact (filterMap_pending_keys_sublist cn.nodes).nodup hnd

lemma update_state_of_mem {cn : ContactNetwork} {r e i : ℕ → ℚ} {net' : ContactNetwork}
    {mods : List (ℕ × State)} (hnd : cn.nodes.Nodup)
    (h : update cn r e i = .ok (net', mods)) {n : ℕ} {s : State} (hm : (n, s) ∈ mods) :
    net'.state n = s ∧ net'.time_changed_state n = cn.tau := by
  have hk := update_keys_nodup hnd h
  rcases update_ok_elim h with ⟨_, rfl⟩
  exact applyMods_mem mods cn n s hk hm

lemma update_state_not_key {cn : ContactNetwork} {r e i : ℕ → ℚ} {net' : ContactNetwork}
    {mods : List (ℕ × State)} (h : update cn r e i = .ok (net', mods)) {n : ℕ}
    (hm : n ∉ mods.map Prod.fst) :
    net'.state n = cn.state n ∧ net'.time_changed_state n = cn.time_changed_state n := by
  rcases update_ok_elim h with ⟨_, rfl⟩
  exact applyMods_not_mem mods cn n hm

lemma update_state_eq {cn : ContactNetwork} {r e i : ℕ → ℚ} {net' : ContactNetwork}
    {mods : List (ℕ × State)} (hnd : cn.nodes.Nodup)
    (h : update cn r e i = .ok (net', mods)) {n : ℕ} (hn : n ∈ cn.nodes) :
    net'.state n = (match decision cn n (r n) (e n) (i n) with
      | .ok (some s) => s
      | _ => cn.state n) := by
  rcases hd : decision cn n (r n) (e n) (i n) with u | o
  · rcases computeModified_ok_decision (update_ok_elim h).1 n hn with ⟨o, ho⟩
    rw [hd] at ho
    cases ho
  · cases o with
    | some s =>
      exact (update_state_of_mem hnd h ((update_mods_mem h).mpr ⟨hn, hd⟩)).1
    | none =>
      have hnk : n ∉ mods.map Prod.fst := by
        intro hk
        rcases List.mem_map.mp hk with ⟨p, hp, hfst⟩
        have hps : (n, p.2) ∈ mods := by
          rw [← hfst]
          exact hp
        have := ((update_mods_mem h).mp hps).2
        rw [hd] at this
        cases this
      exact (update_state_not_key h hnk).1

lemma update_state_not_node {cn : ContactNetwork} {r e i : ℕ → ℚ} {net' : ContactNetwork}
    {mods : List (ℕ × State)} (h : update cn r e i = .ok (net', mods)) {n : ℕ}
    (hn : n ∉ cn.nodes) :
    net'.state n = cn.state n ∧ net'.time_changed_state n = cn.time_changed_state n := by
  apply update_state_not_key h
  intro hk
  apply hn
  rw [update_mods_eq h] at hk
  exact (filterMap_pending_keys_sublist cn.nodes).mem hk

lemma decision_cases {cn : ContactNetwork} {n : ℕ} {a b c : ℚ} {s : State}
    (h : decision cn n a b c = .ok (some s)) :
    (s = State.EXPOSED ∧ cn.state n = State.SUSCEPTIBLE) ∨
    (s = State.INFECTED ∧ cn.state n = State.EXPOSED) ∨
    (s = State.RECOVERED ∧ cn.state n = State.INFECTED) := by
  rcases hst : cn.state n with _ | _ | _ | _
  · simp only [decision, hst] at h
    rcases hce : collectEdges cn n (cn.neighbors n) with u | edges
    · simp only [hce] at h
      exact Except.noConfusion h
    · simp only [hce, Except.ok.injEq] at h
      split at h
      · injection h with h2
        exact Or.inl ⟨h2.symm, rfl⟩
      · exact Option.noConfusion h
  · simp only [decision, hst, Except.ok.injEq] at h
    split at h
    · injection h with h2
      exact Or.inr (Or.inr ⟨h2.symm, rfl⟩)
    · exact Option.noConfusion h
  · simp only [decision, hst, Except.ok.injEq] at h
    exact Option.noConfusion h
  · simp only [decision, hst, Except.ok.injEq] at h
    split at h
    · injection h with h2
      exact Or.inr (Or.inl ⟨h2.symm, rfl⟩)
    · exact Option.noConfusion h

lemma decision_of_recovered {cn : ContactNetwork} {n : ℕ} (a b c : ℚ)
    (hst : cn.state n = State.RECOVERED) : decision cn n a b c = .ok none := by
  rw [decision, hst]

lemma collectEdges_ok_of_no_IE {cn : ContactNetwork} {node : ℕ} :
    ∀ {l : List ℕ}, (∀ m ∈ l, cn.state m ≠ State.INFECTED ∧ cn.state m ≠ State.EXPOSED) →
    collectEdges cn node l = .ok [] := by
  intro l
  induction l with
  | nil => intro _; rfl
  | cons m ns ih =>
    intro h
    rw [collectEdges]
    have hm := h m (List.mem_cons_self m ns)
    rw [if_neg (by
      rintro (h1 | h2)
      · exact hm.1 h1
      · exact hm.2 h2)]
    exact ih (fun x hx => h x (List.mem_cons_of_mem m hx))

lemma collectEdges_error_of_missing {cn : ContactNetwork} {node : ℕ} :
    ∀ {l : List ℕ} {m : ℕ}, m ∈ l →
    (cn.state m = State.INFECTED ∨ cn.state m = State.EXPOSED) →
    cn.weight node m = none → collectEdges cn node l = .error () := by
  intro l
  induction l with
  | nil => intro m hm _ _; cases hm
  | cons k ns ih =>
    intro m hm hIE hw
    rw [collectEdges]
    rcases List.mem_cons.mp hm with rfl | hm'
    · rw [if_pos hIE, hw]
    · by_cases hk : cn.state k = State.INFECTED ∨ cn.state k = State.EXPOSED
      · rw [if_pos hk]
        rcases hwk : cn.weight node k with _ | w
        · rfl
        · rw [ih hm' hIE hw]
      · rw [if_neg hk]
        exact ih hm' hIE hw

lemma decision_susceptible_none {cn : ContactNetwork} {n : ℕ} {a b c : ℚ}
    (hst : cn.state n = State.SUSCEPTIBLE)
    (hno : ∀ m ∈ cn.neighbors n, cn.state m ≠ State.INFECTED ∧ cn.state m ≠ State.EXPOSED)
    (hpos : 0 < b) : decision cn n a b c = .ok none := by
  rw [decision, hst, collectEdges_ok_of_no_IE hno]
  simp only [List.map_nil]
  rw [if_neg]
  have h0 : Probability.unionProbability [] = 0 := by
    simp [Probability.unionProbability, Probability.jointProbability]
  rw [h0]
  intro hge
  exact absurd hpos (not_lt.mpr hge)

lemma decision_error_of_missing_weight {cn : ContactNetwork} {n m : ℕ} {a b c : ℚ}
    (hst : cn.state n = State.SUSCEPTIBLE) (hm : m ∈ cn.neighbors n)
    (hIE : cn.state m = State.INFECTED ∨ cn.state m = State.EXPOSED)
    (hw : cn.weight n m = none) : decision cn n a b c = .error () := by
  rw [decision, hst, collectEdges_error_of_missing hm hIE hw]

lemma update_error_of_decision {cn : ContactNetwork} {r e i : ℕ → ℚ} {n : ℕ}
    (hn : n ∈ cn.nodes) (hd : decision cn n (r n) (e n) (i n) = .error ()) :
    update cn r e i = .error () := by
  rw [update, computeModified_error_of_mem hn hd]

lemma seedNodes_fields : ∀ (l : List ℕ) (cn : ContactNetwork),
    (seedNodes cn l).1.nodes = cn.nodes ∧
    (seedNodes cn l).1.adj = cn.adj ∧
    (seedNodes cn l).1.weight = cn.weight ∧
    (seedNodes cn l).1.tau = cn.tau := by
  intro l
  induction l with
  | nil => intro cn; exact ⟨rfl, rfl, rfl, rfl⟩
  | cons k ks ih =>
    intro cn
    rw [seedNodes]
    by_cases hk : k ∈ cn.nodes
    · rw [if_pos hk]
      exact ih (cn.change_node_state k State.INFECTED)
    · rw [if_neg hk]
      exact ⟨rfl, rfl, rfl, rfl⟩

lemma seedNodes_state_cases : ∀ (l : List ℕ) (cn : ContactNetwork) (x : ℕ),
    (seedNodes cn l).1.state x = cn.state x ∨
      (seedNodes cn l).1.state x = State.INFECTED := by
  intro l
  induction l with
  | nil => intro cn x; exact Or.inl rfl
  | cons k ks ih =>
    intro cn x
    rw [seedNodes]
    by_cases hk : k ∈ cn.nodes
    · rw [if_pos hk]
      rcases ih (cn.change_node_state k State.INFECTED) x with h | h
      · rw [h, change_node_state_state]
        by_cases hx : x = k
        · rw [if_pos hx]
          exact Or.inr rfl
        · rw [if_neg hx]
          exact Or.inl rfl
      · exact Or.inr h
    · rw [if_neg hk]
      exact Or.inl rfl

lemma seedNodes_time_cases : ∀ (l : List ℕ) (cn : ContactNetwork) (x : ℕ),
    (seedNodes cn l).1.time_changed_state x = cn.time_changed_state x ∨
      (seedNodes cn l).1.time_changed_state x = cn.tau := by
  intro l
  induction l with
  | nil => intro cn x; exact Or.inl rfl
  | cons k ks ih =>
    intro cn x
    rw [seedNodes]
    by_cases hk : k ∈ cn.nodes
    · rw [if_pos hk]
      have htau : (cn.change_node_state k State.INFECTED).tau = cn.tau := rfl
      rcases ih (cn.change_node_state k State.INFECTED) x with h | h
      · rw [h, change_node_state_time]
        by_cases hx : x = k
        · rw [if_pos hx]
          exact Or.inr rfl
        · rw [if_neg hx]
          exact Or.inl rfl
      · rw [h, htau]
        exact Or.inr rfl
    · rw [if_neg hk]
      exact Or.inl rfl

lemma seedNodes_infected_of_state : ∀ (l : List ℕ) (cn : ContactNetwork) (x : ℕ),
    cn.state x = State.INFECTED → (seedNodes cn l).1.state x = State.INFECTED := by
  intro l
  induction l with
  | nil => intro cn x h; exact h
  | cons k ks ih =>
    intro cn x h
    rw [seedNodes]
    by_cases hk : k ∈ cn.nodes
    · rw [if_pos hk]
      apply ih
      rw [change_node_state_state]
      by_cases hx : x = k
      · rw [if_pos hx]
      · rw [if_neg hx]
        exact h
    · rw [if_neg hk]
      exact h

lemma seedNodes_partial : ∀ (l1 : List ℕ) (cn : ContactNetwork) (k : ℕ) (l2 : List ℕ),
    (∀ x ∈ l1, x ∈ cn.nodes) → k ∉ cn.nodes →
    (seedNodes cn (l1 ++ k :: l2)).2 = some k ∧
      (∀ x ∈ l1, (seedNodes cn (l1 ++ k :: l2)).1.state x = State.INFECTED) := by
  intro l1
  induction l1 with
  | nil =>
    intro cn k l2 _ hk
    rw [List.nil_append, seedNodes, if_neg hk]
    exact ⟨rfl, fun x hx => absurd hx (List.not_mem_nil x)⟩
  | cons a t ih =>
    intro cn k l2 h1 hk
    have ha : a ∈ cn.nodes := h1 a (List.mem_cons_self a t)
    rw [List.cons_append, seedNodes, if_pos ha]
    have hnodes : (cn.change_node_state a State.INFECTED).nodes = cn.nodes := rfl
    have h1' : ∀ x ∈ t, x ∈ (cn.change_node_state a State.INFECTED).nodes := by
      rw [hnodes]
      exact fun x hx => h1 x (List.mem_cons_of_mem a hx)
    have hk' : k ∉ (cn.change_node_state a State.INFECTED).nodes := by
      rw [hnodes]
      exact hk
    obtain ⟨he, hs⟩ := ih (cn.change_node_state a State.INFECTED) k l2 h1' hk'
    refine ⟨he, ?_⟩
    intro x hx
    rcases List.mem_cons.mp hx with rfl | hx'
    · apply seedNodes_infected_of_state
      rw [change_node_state_state, if_pos rfl]
    · exact hs x hx'

lemma seedNodes_ok_state : ∀ (l : List ℕ) (cn : ContactNetwork) (x : ℕ),
    (seedNodes cn l).2 = none →
    (seedNodes cn l).1.state x = if x ∈ l then State.INFECTED else cn.state x := by
  intro l
  induction l with
  | nil =>
    intro cn x _
    rw [seedNodes]
    simp
  | cons k ks ih =>
    intro cn x hok
    rw [seedNodes] at hok ⊢
    by_cases hk : k ∈ cn.nodes
    · rw [if_pos hk] at hok ⊢
      rw [ih _ x hok]
      by_cases hx : x ∈ ks
      · rw [if_pos hx, if_pos (List.mem_cons_of_mem k hx)]
      · rw [if_neg hx, change_node_state_state]
        by_cases hxk : x = k
        · rw [if_pos hxk, if_pos (by rw [hxk]; exact List.mem_cons_self k ks)]
        · rw [if_neg hxk, if_neg (by
            intro hmem
            rcases List.mem_cons.mp hmem with h | h
            · exact hxk h
            · exact hx h)]
    · rw [if_neg hk] at hok
      cases hok

lemma foldl_change_S_invariant : ∀ (l : List ℕ) (c : ContactNetwork),
    c.tau = 0 → (∀ m, c.state m = State.SUSCEPTIBLE) →
    (∀ m, c.time_changed_state m = 0) →
    (l.foldl (fun c node => c.change_node_state node State.SUSCEPTIBLE) c).tau = 0 ∧
    (∀ m, (l.foldl (fun c node => c.change_node_state node State.SUSCEPTIBLE) c).state m
      = State.SUSCEPTIBLE) ∧
    (∀ m, (l.foldl (fun c node => c.change_node_state node State.SUSCEPTIBLE) c).time_changed_state m = 0) ∧
    (l.foldl (fun c node => c.change_node_state node State.SUSCEPTIBLE) c).nodes = c.nodes ∧
    (l.foldl (fun c node => c.change_node_state node State.SUSCEPTIBLE) c).adj = c.adj ∧
    (l.foldl (fun c node => c.change_node_state node State.SUSCEPTIBLE) c).weight = c.weight := by
  intro l
  induction l with
  | nil => intro c h1 h2 h3; exact ⟨h1, h2, h3, rfl, rfl, rfl⟩
  | cons a t ih =>
    intro c h1 h2 h3
    rw [List.foldl_cons]
    apply ih
    · exact h1
    · intro m
      rw [change_node_state_state]
      by_cases hm : m = a
      · rw [if_pos hm]
      · rw [if_neg hm]
        exact h2 m
    · intro m
      rw [change_node_state_time]
      by_cases hm : m = a
      · rw [if_pos hm]
        exact h1
      · rw [if_neg hm]
        exact h3 m

lemma init_spec (g : Graph) :
    (ContactNetwork.init g).tau = 0 ∧
    (∀ m, (ContactNetwork.init g).state m = State.SUSCEPTIBLE) ∧
    (∀ m, (ContactNetwork.init g).time_changed_state m = 0) ∧
    (ContactNetwork.init g).nodes = g.nodes ∧
    (ContactNetwork.init g).adj = g.adj ∧
    (ContactNetwork.init g).weight = g.weight := by
  rw [ContactNetwork.init]
  exact foldl_change_S_invariant g.nodes _ rfl (fun _ => rfl) (fun _ => rfl)

lemma update_susceptible_no_IE {cn : ContactNetwork} {r e i : ℕ → ℚ}
    {net' : ContactNetwork} {mods : List (ℕ × State)} {n : ℕ}
    (hnd : cn.nodes.Nodup) (hst : cn.state n = State.SUSCEPTIBLE)
    (hno : ∀ m ∈ cn.neighbors n, cn.state m ≠ State.INFECTED ∧ cn.state m ≠ State.EXPOSED)
    (hpos : 0 < e n) (hup : update cn r e i = .ok (net', mods)) :
    net'.state n = State.SUSCEPTIBLE := by
  by_cases hn : n ∈ cn.nodes
  · have hdec := decision_susceptible_none (a := r n) (c := i n) hst hno hpos
    have h2 : net'.state n = cn.state n := by
      rw [update_state_eq hnd hup hn, hdec]
    rw [h2, hst]
  · rw [(update_state_not_node hup hn).1, hst]

lemma runSteps_isolated : ∀ (samps : List ((ℕ → ℚ) × (ℕ → ℚ) × (ℕ → ℚ)))
    (cn : ContactNetwork) (n : ℕ) (net' : ContactNetwork),
    cn.nodes.Nodup → (∀ m, cn.adj n m = false) → cn.state n = State.SUSCEPTIBLE →
    (∀ s ∈ samps, 0 < s.2.1 n) → runSteps cn samps = .ok net' →
    net'.state n = State.SUSCEPTIBLE := by
  intro samps
  induction samps with
  | nil =>
    intro cn n net' _ _ hst _ h
    rw [runSteps] at h
    cases h
    exact hst
  | cons s rest ih =>
    intro cn n net' hnd hiso hst hpos h
    rw [runSteps] at h
    rcases hu : update cn s.1 s.2.1 s.2.2 with u | p
    · rw [hu] at h
      exact Except.noConfusion h
    · rw [hu] at h
      rcases p with ⟨cn1, mods1⟩
      have hno : ∀ m ∈ cn.neighbors n,
          cn.state m ≠ State.INFECTED ∧ cn.state m ≠ State.EXPOSED := by
        intro m hm
        rw [neighbors, List.mem_filter] at hm
        rw [hiso m] at hm
        exact absurd hm.2 (by simp)
      have hst1 : cn1.state n = State.SUSCEPTIBLE :=
        update_susceptible_no_IE hnd hst hno (hpos s (List.mem_cons_self s rest)) hu
      have hf := update_fields hu
      apply ih cn1 n net'
      · rw [hf.1]
        exact hnd
      · intro m
        rw [hf.2.1]
        exact hiso m
      · exact hst1
      · exact fun s' hs' => hpos s' (List.mem_cons_of_mem s hs')
      · exact h

lemma pendingChange_map_snd {cn : ContactNetwork} {r e i : ℕ → ℚ} (n : ℕ) :
    (pendingChange cn r e i n).map Prod.snd =
      (match decision cn n (r n) (e n) (i n) with
       | .ok (some s) => some s
       | _ => none) := by
  rcases hd : decision cn n (r n) (e n) (i n) with u | o
  · simp [pendingChange, hd]
  · cases o <;> simp [pendingChange, hd]

lemma dec_eq_some_iff {cn : ContactNetwork} {r e i : ℕ → ℚ} {n : ℕ} {s : State} :
    (pendingChange cn r e i n).map Prod.snd = some s ↔
      decision cn n (r n) (e n) (i n) = .ok (some s) := by
  rw [pendingChange_map_snd]
  rcases hd : decision cn n (r n) (e n) (i n) with u | o
  · simp
  · cases o with
    | none => simp
    | some s' => simp

lemma countState_filterMap {cn : ContactNetwork} {r e i : ℕ → ℚ} (s : State) :
    ∀ l : List ℕ,
    countState (l.filterMap (pendingChange cn r e i)) s =
      l.countP (fun n => decide ((pendingChange cn r e i n).map Prod.snd = some s)) := by
  intro l
  induction l with
  | nil => rfl
  | cons a t ih =>
    rw [List.filterMap_cons, List.countP_cons]
    rcases hpc : pendingChange cn r e i a with _ | p
    · simp only [countState] at ih ⊢
      simp [ih]
    · simp only [countState] at ih ⊢
      simp only [List.countP_cons, ih, Option.map_some']
      have hdd : decide (p.2 = s) = decide (some p.2 = some s) := by
        rw [decide_eq_decide]
        simp
      rw [hdd]

lemma count_step (pre post : ℕ → State) (dec : ℕ → Option State) :
    ∀ l : List ℕ,
    (∀ n ∈ l, post n = (dec n).getD (pre n) ∧
      (dec n = some State.EXPOSED → pre n = State.SUSCEPTIBLE) ∧
      (dec n = some State.INFECTED → pre n = State.EXPOSED) ∧
      (dec n = some State.RECOVERED → pre n = State.INFECTED) ∧
      dec n ≠ some State.SUSCEPTIBLE) →
    (l.countP (fun n => decide (post n = State.EXPOSED)) +
       l.countP (fun n => decide (dec n = some State.INFECTED)) =
     l.countP (fun n => decide (pre n = State.EXPOSED)) +
       l.countP (fun n => decide (dec n = some State.EXPOSED))) ∧
    (l.countP (fun n => decide (post n = State.INFECTED)) +
       l.countP (fun n => decide (dec n = some State.RECOVERED)) =
     l.countP (fun n => decide (pre n = State.INFECTED)) +
       l.countP (fun n => decide (dec n = some State.INFECTED))) ∧
    (l.countP (fun n => decide (post n = State.RECOVERED)) =
     l.countP (fun n => decide (pre n = State.RECOVERED)) +
       l.countP (fun n => decide (dec n = some State.RECOVERED))) := by
  intro l
  induction l with
  | nil => intro _; exact ⟨rfl, rfl, rfl⟩
  | cons a t ih =>
    intro hc
    obtain ⟨h1, h2, h3, h4, h5⟩ := hc a (List.mem_cons_self a t)
    obtain ⟨i1, i2, i3⟩ := ih (fun n hn => hc n (List.mem_cons_of_mem a hn))
    simp only [List.countP_cons]
    rcases hda : dec a with _ | s
    · rw [hda, Option.getD_none] at h1
      rcases hpre : pre a with _ | _ | _ | _ <;>
        · simp [h1, hpre, hda]
          omega
    · rcases s with _ | _ | _ | _
      · exact absurd hda h5
      · have hpre := h3 hda
        rw [hda, Option.getD_some] at h1
        simp [h1, hpre, hda]
        omega
      · have hpre := h4 hda
        rw [hda, Option.getD_some] at h1
        simp [h1, hpre, hda]
        omega
      · have hpre := h2 hda
        rw [hda, Option.getD_some] at h1
        simp [h1, hpre, hda]
        omega

lemma update_count_equations {cn : ContactNetwork} {r e i : ℕ → ℚ}
    {net' : ContactNetwork} {mods : List (ℕ × State)} (hnd : cn.nodes.Nodup)
    (hup : update cn r e i = .ok (net', mods)) :
    (stateCount net' State.EXPOSED + countState mods State.INFECTED =
      stateCount cn State.EXPOSED + countState mods State.EXPOSED) ∧
    (stateCount net' State.INFECTED + countState mods State.RECOVERED =
      stateCount cn State.INFECTED + countState mods State.INFECTED) ∧
    (stateCount net' State.RECOVERED =
      stateCount cn State.RECOVERED + countState mods State.RECOVERED) := by
  have hcs : ∀ s, countState mods s =
      cn.nodes.countP (fun n => decide ((pendingChange cn r e i n).map Prod.snd = some s)) := by
    intro s
    rw [update_mods_eq hup, countState_filterMap]
  have hsc : ∀ s, stateCount net' s =
      cn.nodes.countP (fun n => decide (net'.state n = s)) := by
    intro s
    rw [stateCount, (update_fields hup).1]
  have hcompat : ∀ n ∈ cn.nodes,
      net'.state n = ((pendingChange cn r e i n).map Prod.snd).getD (cn.state n) ∧
      ((pendingChange cn r e i n).map Prod.snd = some State.EXPOSED →
        cn.state n = State.SUSCEPTIBLE) ∧
      ((pendingChange cn r e i n).map Prod.snd = some State.INFECTED →
        cn.state n = State.EXPOSED) ∧
      ((pendingChange cn r e i n).map Prod.snd = some State.RECOVERED →
        cn.state n = State.INFECTED) ∧
      (pendingChange cn r e i n).map Prod.snd ≠ some State.SUSCEPTIBLE := by
    intro n hn
    have hse := update_state_eq hnd hup hn
    rcases computeModified_ok_decision (update_ok_elim hup).1 n hn with ⟨o, ho⟩
    refine ⟨?_, ?_, ?_, ?_, ?_⟩
    · rw [pendingChange_map_snd, ho, hse, ho]
      cases o with
      | none => rfl
      | some s => rfl
    · intro hds
      rcases decision_cases (dec_eq_some_iff.mp hds) with ⟨_, h⟩ | ⟨hcon, _⟩ | ⟨hcon, _⟩
      · exact h
      · exact State.noConfusion hcon
      · exact State.noConfusion hcon
    · intro hds
      rcases decision_cases (dec_eq_some_iff.mp hds) with ⟨hcon, _⟩ | ⟨_, h⟩ | ⟨hcon, _⟩
      · exact State.noConfusion hcon
      · exact h
      · exact State.noConfusion hcon
    · intro hds
      rcases decision_cases (dec_eq_some_iff.mp hds) with ⟨hcon, _⟩ | ⟨hcon, _⟩ | ⟨_, h⟩
      · exact State.noConfusion hcon
      · exact State.noConfusion hcon
      · exact h
    · intro hds
      rcases decision_cases (dec_eq_some_iff.mp hds) with ⟨hcon, _⟩ | ⟨hcon, _⟩ | ⟨hcon, _⟩
      · exact State.noConfusion hcon
      · exact State.noConfusion hcon
      · exact State.noConfusion hcon
  obtain ⟨e1, e2, e3⟩ := count_step cn.state net'.state
    (fun n => (pendingChange cn r e i n).map Prod.snd) cn.nodes hcompat
  refine ⟨?_, ?_, ?_⟩
  · rw [hsc, hcs, hcs, stateCount]
    exact e1
  · rw [hsc, hcs, hcs, stateCount]
    exact e2
  · rw [hsc, hcs, stateCount]
    exact e3

lemma countP_three_exclusive (f : ℕ → State) : ∀ l : List ℕ,
    l.countP (fun n => decide (f n = State.EXPOSED)) +
      l.countP (fun n => decide (f n = State.INFECTED)) +
      l.countP (fun n => decide (f n = State.RECOVERED)) ≤ l.length := by
  intro l
  induction l with
  | nil => simp
  | cons a t ih =>
    simp only [List.countP_cons, List.length_cons]
    rcases hfa : f a with _ | _ | _ | _ <;>
      · simp [hfa]
        omega

lemma stateCount_three_le (cn : ContactNetwork) :
    stateCount cn State.EXPOSED + stateCount cn State.INFECTED +
      stateCount cn State.RECOVERED ≤ cn.nodes.length := by
  rw [stateCount, stateCount, stateCount]
  exact countP_three_exclusive cn.state cn.nodes

lemma countP_mem_of_nodup : ∀ (L sub : List ℕ), L.Nodup → sub.Nodup →
    (∀ x ∈ sub, x ∈ L) → L.countP (fun n => decide (n ∈ sub)) = sub.length := by
  intro L sub hL hsub hss
  rw [List.countP_eq_length_filter]
  have hperm : (L.filter (fun n => decide (n ∈ sub))).Perm sub := by
    apply (List.perm_ext_iff_of_nodup (hL.filter _) hsub).mpr
    intro a
    rw [List.mem_filter]
    constructor
    · rintro ⟨_, h2⟩
      exact of_decide_eq_true h2
    · intro h
      exact ⟨hss a h, decide_eq_true h⟩
  exact hperm.length_eq

lemma seed_counts {cn : ContactNetwork} {l : List ℕ} (hnd : cn.nodes.Nodup)
    (hl : l.Nodup) (hsub : ∀ x ∈ l, x ∈ cn.nodes)
    (hS : ∀ n, cn.state n = State.SUSCEPTIBLE)
    (hok : (seedNodes cn l).2 = none) :
    stateCount (seedNodes cn l).1 State.INFECTED = l.length ∧
    stateCount (seedNodes cn l).1 State.EXPOSED = 0 ∧
    stateCount (seedNodes cn l).1 State.RECOVERED = 0 := by
  have hst : ∀ x, (seedNodes cn l).1.state x =
      if x ∈ l then State.INFECTED else cn.state x :=
    fun x => seedNodes_ok_state l cn x hok
  have hnodes : (seedNodes cn l).1.nodes = cn.nodes := (seedNodes_fields l cn).1
  refine ⟨?_, ?_, ?_⟩
  · rw [stateCount, hnodes]
    have hcong : cn.nodes.countP (fun n => decide ((seedNodes cn l).1.state n = State.INFECTED)) =
        cn.nodes.countP (fun n => decide (n ∈ l)) := by
      apply List.countP_congr
      intro n _
      rw [hst n]
      by_cases hnl : n ∈ l
      · rw [if_pos hnl]
        simp [hnl]
      · rw [if_neg hnl, hS n]
        simp [hnl]
    rw [hcong]
    exact countP_mem_of_nodup cn.nodes l hnd hl hsub
  · rw [stateCount, hnodes]
    apply List.countP_eq_zero.mpr
    intro n _
    rw [hst n]
    by_cases hnl : n ∈ l
    · rw [if_pos hnl]
      simp
    · rw [if_neg hnl, hS n]
      simp
  · rw [stateCount, hnodes]
    apply List.countP_eq_zero.mpr
    intro n _
    rw [hst n]
    by_cases hnl : n ∈ l
    · rw [if_pos hnl]
      simp
    · rw [if_neg hnl, hS n]
      simp

lemma statsLoop_bounds : ∀ (samps : List ((ℕ → ℚ) × (ℕ → ℚ) × (ℕ → ℚ)))
    (cn : ContactNetwork) (prev : ℤ × ℤ × ℤ) (stats : List (ℤ × ℤ × ℤ)),
    cn.nodes.Nodup →
    prev = ((stateCount cn State.EXPOSED : ℤ), (stateCount cn State.INFECTED : ℤ),
      (stateCount cn State.RECOVERED : ℤ)) →
    statsLoop cn prev samps = .ok stats →
    ∀ p ∈ stats, 0 ≤ p.1 ∧ 0 ≤ p.2.1 ∧ 0 ≤ p.2.2 ∧
      p.1 + p.2.1 + p.2.2 ≤ (cn.nodes.length : ℤ) := by
  intro samps
  induction samps with
  | nil =>
    intro cn prev stats _ _ h p hp
    rw [statsLoop] at h
    cases h
    cases hp
  | cons s rest ih =>
    intro cn prev stats hnd hprev h p hp
    rw [statsLoop] at h
    split at h
    · exact Except.noConfusion h
    · rename_i cn1 mods hu
      split at h
      · exact Except.noConfusion h
      · rename_i stats' hsl
        cases h
        have hcur : nextStats prev mods =
            ((stateCount cn1 State.EXPOSED : ℤ), (stateCount cn1 State.INFECTED : ℤ),
              (stateCount cn1 State.RECOVERED : ℤ)) := by
          obtain ⟨e1, e2, e3⟩ := update_count_equations hnd hu
          rw [hprev, nextStats]
          simp only [Prod.mk.injEq]
          refine ⟨by omega, by omega, by omega⟩
        have hnodes1 : cn1.nodes = cn.nodes := (update_fields hu).1
        rcases List.mem_cons.mp hp with rfl | hp'
        · rw [hcur]
          have hsum := stateCount_three_le cn1
          rw [hnodes1] at hsum
          refine ⟨by positivity, by positivity, by positivity, by
            push_cast
            omega⟩
        · have hres := ih cn1 (nextStats prev mods) stats' (by rw [hnodes1]; exact hnd)
            hcur hsl p hp'
          rw [hnodes1] at hres
          exact hres

end ContactNetwork

open ContactNetwork in
/-- C1: in a step at time `tau`, a susceptible node's rule computes, for
each neighbor whose pre-step state is Infected or Exposed with edge
weight `r` and neighbor `time_changed_state` `t` (the pairs collected
by `collectEdges`), the per-neighbor exposure probability
`T(r, t) = 1 - (1 - r)^(tau - t)`, combines them into one aggregate `z`
via `unionProbability`, and records the pending transition to Exposed
(and ends the step Exposed) exactly when `z >=` the freshly sampled
exposure threshold for that node. -/
theorem c1_susceptible_exposure_rule (cn : ContactNetwork) (r e i : ℕ → ℚ)
    (net' : ContactNetwork) (mods : List (ℕ × State)) (n : ℕ) (es : List (ℚ × ℕ))
    (hnd : cn.nodes.Nodup) (hn : n ∈ cn.nodes) (hst : cn.state n = State.SUSCEPTIBLE)
    (hce : collectEdges cn n (cn.neighbors n) = .ok es)
    (hup : update cn r e i = .ok (net', mods)) :
    ((n, State.EXPOSED) ∈ mods ↔
      Probability.unionProbability
        (es.map (fun p => 1 - (1 - p.1) ^ ((cn.tau : ℤ) - (p.2 : ℤ)))) ≥ e n) ∧
    (net'.state n = State.EXPOSED ↔
      Probability.unionProbability
        (es.map (fun p => 1 - (1 - p.1) ^ ((cn.tau : ℤ) - (p.2 : ℤ)))) ≥ e n) := by
  by_cases hz : Probability.unionProbability
      (es.map (fun p => 1 - (1 - p.1) ^ ((cn.tau : ℤ) - (p.2 : ℤ)))) ≥ e n
  · have hdec : decision cn n (r n) (e n) (i n) = .ok (some State.EXPOSED) := by
      simp only [decision, hst, hce]
      exact congrArg Except.ok (if_pos hz)
    have hmem : (n, State.EXPOSED) ∈ mods := (update_mods_mem hup).mpr ⟨hn, hdec⟩
    exact ⟨⟨fun _ => hz, fun _ => hmem⟩,
      ⟨fun _ => hz, fun _ => (update_state_of_mem hnd hup hmem).1⟩⟩
  · have hdec : decision cn n (r n) (e n) (i n) = .ok none := by
      simp only [decision, hst, hce]
      exact congrArg Except.ok (if_neg hz)
    have hSus : net'.state n = cn.state n := by
      rw [update_state_eq hnd hup hn, hdec]
    constructor
    · constructor
      · intro hmem
        have hd2 := ((update_mods_mem hup).mp hmem).2
        rw [hdec] at hd2
        injection hd2 with h3
        exact Option.noConfusion h3
      · intro hge
        exact absurd hge hz
    · constructor
      · intro hstE
        rw [hSus, hst] at hstE
        exact State.noConfusion hstE
      · intro hge
        exact absurd hge hz

open ContactNetwork in
/-- Witness for C1: the two-node network `netW1` (edge weight `1/2`, node
1 Infected since time 0, `tau = 1`), where the aggregate exposure
`1 - (1 - 1/2)^1 = 1/2` meets the sampled threshold `3/10` and node 0 is
marked Exposed. -/
theorem c1_susceptible_exposure_rule_witness :
    ((0, State.EXPOSED) ∈ modsW2 ↔
      Probability.unionProbability
        ([((1:ℚ)/2, 0)].map (fun p => 1 - (1 - p.1) ^ ((netW1.tau : ℤ) - (p.2 : ℤ)))) ≥ eW 0) ∧
    (netW2.state 0 = State.EXPOSED ↔
      Probability.unionProbability
        ([((1:ℚ)/2, 0)].map (fun p => 1 - (1 - p.1) ^ ((netW1.tau : ℤ) - (p.2 : ℤ)))) ≥ eW 0) :=
  c1_susceptible_exposure_rule netW1 rW eW iW netW2 modsW2 0 [((1:ℚ)/2, 0)]
    (by decide) (by decide) rfl rfl rfl

open ContactNetwork in
/-- C3: in one call to the step function, every pending `(node, newState)`
pair and every node's post-step state are determined by `decision`
evaluated on the pre-step snapshot `cn` alone, and the pending pairs are
applied only after every node has been evaluated: no node's decision
observes another node's same-step update. -/
theorem c3_snapshot_isolation (cn : ContactNetwork) (r e i : ℕ → ℚ)
    (net' : ContactNetwork) (mods : List (ℕ × State)) (hnd : cn.nodes.Nodup)
    (hup : update cn r e i = .ok (net', mods)) :
    (∀ n s, ((n, s) ∈ mods ↔
      n ∈ cn.nodes ∧ decision cn n (r n) (e n) (i n) = .ok (some s))) ∧
    (∀ n ∈ cn.nodes, net'.state n =
      (match decision cn n (r n) (e n) (i n) with
       | .ok (some s) => s
       | _ => cn.state n)) :=
  ⟨fun _ _ => update_mods_mem hup, fun _ hn => update_state_eq hnd hup hn⟩

open ContactNetwork in
/-- Witness for C3 at the concrete two-node network `cnW`. -/
theorem c3_snapshot_isolation_witness :
    (∀ n s, ((n, s) ∈ modsW1 ↔
      n ∈ cnW.nodes ∧ decision cnW n (rW n) (eW n) (iW n) = .ok (some s))) ∧
    (∀ n ∈ cnW.nodes, netW1.state n =
      (match decision cnW n (rW n) (eW n) (iW n) with
       | .ok (some s) => s
       | _ => cnW.state n)) :=
  c3_snapshot_isolation cnW rW eW iW netW1 modsW1 (by decide) rfl

open ContactNetwork in
/-- C4: in every step, a node either keeps its state or makes one of the
transitions Susceptible→Exposed, Exposed→Infected, Infected→Recovered;
in particular no node leaves Recovered and no node jumps from
Susceptible directly to Infected or Recovered. -/
theorem c4_transition_structure (cn : ContactNetwork) (r e i : ℕ → ℚ)
    (net' : ContactNetwork) (mods : List (ℕ × State)) (hnd : cn.nodes.Nodup)
    (hup : update cn r e i = .ok (net', mods)) :
    ∀ n, net'.state n = cn.state n ∨
      (cn.state n = State.SUSCEPTIBLE ∧ net'.state n = State.EXPOSED) ∨
      (cn.state n = State.EXPOSED ∧ net'.state n = State.INFECTED) ∨
      (cn.state n = State.INFECTED ∧ net'.state n = State.RECOVERED) := by
  intro n
  by_cases hn : n ∈ cn.nodes
  · have hse := update_state_eq hnd hup hn
    rcases hd : decision cn n (r n) (e n) (i n) with u | o
    · rcases computeModified_ok_decision (update_ok_elim hup).1 n hn with ⟨o, ho⟩
      rw [hd] at ho
      exact Except.noConfusion ho
    · cases o with
      | none =>
        rw [hd] at hse
        exact Or.inl (hse.trans rfl)
      | some s =>
        rw [hd] at hse
        have hs : net'.state n = s := hse.trans rfl
        rcases decision_cases hd with ⟨rfl, hpre⟩ | ⟨rfl, hpre⟩ | ⟨rfl, hpre⟩
        · exact Or.inr (Or.inl ⟨hpre, hs⟩)
        · exact Or.inr (Or.inr (Or.inl ⟨hpre, hs⟩))
        · exact Or.inr (Or.inr (Or.inr ⟨hpre, hs⟩))
  · exact Or.inl (update_state_not_node hup hn).1

open ContactNetwork in
/-- Witness for C4 at the concrete two-node network `netW1`, whose step
transitions node 0 from Susceptible to Exposed. -/
theorem c4_transition_structure_witness :
    netW2.state 0 = netW1.state 0 ∨
      (netW1.state 0 = State.SUSCEPTIBLE ∧ netW2.state 0 = State.EXPOSED) ∨
      (netW1.state 0 = State.EXPOSED ∧ netW2.state 0 = State.INFECTED) ∨
      (netW1.state 0 = State.INFECTED ∧ netW2.state 0 = State.RECOVERED) :=
  c4_transition_structure netW1 rW eW iW netW2 modsW2 (by decide) rfl 0

open ContactNetwork in
/-- C5: a completed step increments `tau` by exactly 1; every node in the
step's transition map has its state and `time_changed_state` updated
together, with `time_changed_state` set to the pre-increment `tau`; and
the invariant `time_changed_state ≤ tau` holds after construction and is
preserved by seeding and by stepping. -/
theorem c5_clock_monotonicity (cn : ContactNetwork) (g : Graph) (l : List ℕ)
    (r e i : ℕ → ℚ) (net' : ContactNetwork) (mods : List (ℕ × State))
    (hnd : cn.nodes.Nodup) (hup : update cn r e i = .ok (net', mods)) :
    net'.tau = cn.tau + 1 ∧
    (∀ n s, (n, s) ∈ mods →
      net'.state n = s ∧ net'.time_changed_state n = cn.tau) ∧
    ((∀ m, cn.time_changed_state m ≤ cn.tau) →
      ∀ m, net'.time_changed_state m ≤ net'.tau) ∧
    (∀ m, (ContactNetwork.init g).time_changed_state m ≤ (ContactNetwork.init g).tau) ∧
    ((∀ m, cn.time_changed_state m ≤ cn.tau) →
      ∀ m, (seedNodes cn l).1.time_changed_state m ≤ (seedNodes cn l).1.tau) := by
  refine ⟨(update_fields hup).2.2.2, ?_, ?_, ?_, ?_⟩
  · intro n s hm
    exact update_state_of_mem hnd hup hm
  · intro hinv m
    rw [(update_fields hup).2.2.2]
    by_cases hk : m ∈ mods.map Prod.fst
    · rcases List.mem_map.mp hk with ⟨p, hp, hfst⟩
      have hm : (m, p.2) ∈ mods := by
        rw [← hfst]
        exact hp
      rw [(update_state_of_mem hnd hup hm).2]
      omega
    · rw [(update_state_not_key hup hk).2]
      have := hinv m
      omega
  · intro m
    rw [(init_spec g).1, (init_spec g).2.2.1 m]
  · intro hinv m
    rw [(seedNodes_fields l cn).2.2.2]
    rcases seedNodes_time_cases l cn m with h | h
    · rw [h]
      exact hinv m
    · rw [h]

open ContactNetwork in
/-- Witness for C5 at the concrete two-node network `cnW`. -/
theorem c5_clock_monotonicity_witness :
    netW1.tau = cnW.tau + 1 ∧
    (∀ n s, (n, s) ∈ modsW1 →
      netW1.state n = s ∧ netW1.time_changed_state n = cnW.tau) ∧
    ((∀ m, cnW.time_changed_state m ≤ cnW.tau) →
      ∀ m, netW1.time_changed_state m ≤ netW1.tau) ∧
    (∀ m, (ContactNetwork.init gW).time_changed_state m ≤ (ContactNetwork.init gW).tau) ∧
    ((∀ m, cnW.time_changed_state m ≤ cnW.tau) →
      ∀ m, (seedNodes cnW [1]).1.time_changed_state m ≤ (seedNodes cnW [1]).1.tau) :=
  c5_clock_monotonicity cnW gW [1] rW eW iW netW1 modsW1 (by decide) rfl

open ContactNetwork in
/-- C2 (amended): a susceptible node with no Infected or Exposed neighbor
at the start of a step does not transition in that step provided the
sampled exposure threshold is strictly positive; in particular an
isolated node (no edges) stays Susceptible over any number of steps in
which every sampled exposure threshold is strictly positive.  (With a
sampled threshold of exactly 0 — a value the clamped sampler can
return — the comparison `0 >= 0` fires and the node becomes Exposed.) -/
theorem c2_no_exposure_positive_thresholds :
    (∀ (cn : ContactNetwork) (r e i : ℕ → ℚ) (net' : ContactNetwork)
      (mods : List (ℕ × State)) (n : ℕ),
      cn.nodes.Nodup → cn.state n = State.SUSCEPTIBLE →
      (∀ m ∈ cn.neighbors n,
        cn.state m ≠ State.INFECTED ∧ cn.state m ≠ State.EXPOSED) →
      0 < e n → update cn r e i = .ok (net', mods) →
      net'.state n = State.SUSCEPTIBLE) ∧
    (∀ (samps : List ((ℕ → ℚ) × (ℕ → ℚ) × (ℕ → ℚ))) (cn : ContactNetwork)
      (n : ℕ) (net' : ContactNetwork),
      cn.nodes.Nodup → (∀ m, cn.adj n m = false) →
      cn.state n = State.SUSCEPTIBLE → (∀ s ∈ samps, 0 < s.2.1 n) →
      runSteps cn samps = .ok net' → net'.state n = State.SUSCEPTIBLE) :=
  ⟨fun _ _ _ _ _ _ _ hnd hst hno hpos hup =>
    update_susceptible_no_IE hnd hst hno hpos hup,
   fun samps cn n net' hnd hiso hst hpos h =>
    runSteps_isolated samps cn n net' hnd hiso hst hpos h⟩

open ContactNetwork in
/-- Witness for C2 (amended): the isolated node of `cnI` stays
Susceptible over two steps whose exposure samples are `1/2 > 0`. -/
theorem c2_no_exposure_positive_thresholds_witness :
    netIok.state 0 = State.SUSCEPTIBLE :=
  c2_no_exposure_positive_thresholds.2 [(rW, eP, iW), (rW, eP, iW)] cnI 0 netIok
    (by decide) (fun _ => rfl) rfl
    (by
      intro s hs
      rcases List.mem_cons.mp hs with rfl | hs'
      · exact by decide
      · rcases List.mem_cons.mp hs' with rfl | hs''
        · exact by decide
        · cases hs'')
    rfl

open ContactNetwork in
/-- Counterexample for C2 as stated: the isolated susceptible node of
`cnI` has no neighbors at all, yet with the sampled exposure threshold 0
(a value in the sampler's clamped range `[0, 1]`) the empty-union
aggregate `z = 0` satisfies `z >= 0` and the node transitions to
Exposed after one step. -/
theorem c2_counterexample :
    cnI.state 0 = State.SUSCEPTIBLE ∧
    (∀ m, cnI.adj 0 m = false) ∧
    eZ 0 = 0 ∧ 0 ≤ eZ 0 ∧ eZ 0 ≤ 1 ∧
    update cnI rW eZ iW = .ok (netI, modsI) ∧
    netI.state 0 = State.EXPOSED :=
  ⟨rfl, fun _ => rfl, rfl, by decide, by decide, rfl, rfl⟩

open ContactNetwork in
/-- C7 (amended): constructing a simulator never validates edge weights
and always succeeds — every node is initialized to Susceptible with
`tau = 0` even when a weight is missing; the missing weight is never
silently defaulted: it surfaces as a KeyError-style failure of the step
function, in the first step in which a susceptible node reads that
edge's weight because the neighbor on the other end is Infected or
Exposed. -/
theorem c7_missing_weight_behavior :
    (∀ (g : Graph) (n : ℕ),
      (ContactNetwork.init g).state n = State.SUSCEPTIBLE ∧
      (ContactNetwork.init g).tau = 0) ∧
    (∀ (cn : ContactNetwork) (r e i : ℕ → ℚ) (n m : ℕ),
      n ∈ cn.nodes → cn.state n = State.SUSCEPTIBLE → m ∈ cn.neighbors n →
      (cn.state m = State.INFECTED ∨ cn.state m = State.EXPOSED) →
      cn.weight n m = none → update cn r e i = .error ()) :=
  ⟨fun g n => ⟨(init_spec g).2.1 n, (init_spec g).1⟩,
   fun _ _ _ _ _ _ hn hst hnb hIE hw =>
    update_error_of_decision hn (decision_error_of_missing_weight hst hnb hIE hw)⟩

open ContactNetwork in
/-- Witness for C7 (amended) on the graph `gC7` whose edge `0–1` has no
weight attribute: construction succeeds with both nodes Susceptible, and
after seeding node 1 Infected the first step fails. -/
theorem c7_missing_weight_behavior_witness :
    ((ContactNetwork.init gC7).state 0 = State.SUSCEPTIBLE ∧
      (ContactNetwork.init gC7).tau = 0) ∧
    update cnC7 rW eW iW = .error () :=
  ⟨c7_missing_weight_behavior.1 gC7 0,
   c7_missing_weight_behavior.2 cnC7 rW eW iW 0 1 (by decide) rfl (by decide)
    (Or.inl rfl) rfl⟩

open ContactNetwork in
/-- Counterexample for C7 as stated: on the graph `gC7` with a missing
edge weight, construction does not fail before state initialization — it
completes, initializing every node's state to Susceptible; the failure
happens only later, when a step reads the missing weight. -/
theorem c7_counterexample :
    gC7.weight 0 1 = none ∧
    (ContactNetwork.init gC7).state 0 = State.SUSCEPTIBLE ∧
    (ContactNetwork.init gC7).state 1 = State.SUSCEPTIBLE ∧
    (ContactNetwork.init gC7).tau = 0 ∧
    update cnC7 rW eW iW = .error () :=
  ⟨rfl, rfl, rfl, rfl, rfl⟩

open ContactNetwork in
/-- C8 (amended): seeding a list of initially infected nodes containing a
key not in the graph fails with a KeyError-style error at the first
unknown key, but the keys before it in the list have already been set to
Infected when the failure occurs (partial application, not
validate-first). -/
theorem c8_partial_seeding (cn : ContactNetwork) (l1 : List ℕ) (k : ℕ) (l2 : List ℕ)
    (h1 : ∀ x ∈ l1, x ∈ cn.nodes) (hk : k ∉ cn.nodes) :
    (seedNodes cn (l1 ++ k :: l2)).2 = some k ∧
      ∀ x ∈ l1, (seedNodes cn (l1 ++ k :: l2)).1.state x = State.INFECTED :=
  seedNodes_partial l1 cn k l2 h1 hk

open ContactNetwork in
/-- Witness for C8 (amended): seeding `[0, 5]` on the two-node graph
(nodes 0 and 1) fails at the unknown key 5 with node 0 already
Infected. -/
theorem c8_partial_seeding_witness :
    ((seedNodes (ContactNetwork.init gW) ([0] ++ 5 :: [])).2 = some 5 ∧
      ∀ x ∈ [0], (seedNodes (ContactNetwork.init gW) ([0] ++ 5 :: [])).1.state x =
        State.INFECTED) :=
  c8_partial_seeding (ContactNetwork.init gW) [0] 5 [] (by decide) (by decide)

open ContactNetwork in
/-- Counterexample for C8 as stated: seeding `[0, 5]` on the two-node
graph raises on the unknown key 5, but node 0 — earlier in the list — has
already been seeded Infected, so the node states are not left unchanged
and the full set was not validated first. -/
theorem c8_counterexample :
    (seedNodes (ContactNetwork.init gW) [0, 5]).2 = some 5 ∧
    (seedNodes (ContactNetwork.init gW) [0, 5]).1.state 0 = State.INFECTED ∧
    (ContactNetwork.init gW).state 0 = State.SUSCEPTIBLE :=
  ⟨rfl, rfl, rfl⟩

open ContactNetwork in
/-- C9: in every successful run of `collect_statistics` on a freshly
constructed simulator (all nodes Susceptible) with a duplicate-free
initial infected set of known nodes, every column `(E, I, R)` of the
statistics matrix — step 0 included — has non-negative entries whose sum
is at most the total number of nodes. -/
theorem c9_statistics_conservation (cn : ContactNetwork) (infected : List ℕ)
    (samps : List ((ℕ → ℚ) × (ℕ → ℚ) × (ℕ → ℚ))) (stats : List (ℤ × ℤ × ℤ))
    (hnd : cn.nodes.Nodup) (hinf : infected.Nodup)
    (hsub : ∀ x ∈ infected, x ∈ cn.nodes)
    (hS : ∀ n, cn.state n = State.SUSCEPTIBLE)
    (hok : collect_statistics cn infected samps = .ok stats) :
    ∀ p ∈ stats, 0 ≤ p.1 ∧ 0 ≤ p.2.1 ∧ 0 ≤ p.2.2 ∧
      p.1 + p.2.1 + p.2.2 ≤ (cn.nodes.length : ℤ) := by
  rw [collect_statistics] at hok
  split at hok
  · exact Except.noConfusion hok
  · rename_i cn0 hseed
    split at hok
    · exact Except.noConfusion hok
    · rename_i stats' hsl
      cases hok
      have hok2 : (seedNodes cn infected).2 = none := by
        rw [hseed]
      have hcn0 : cn0 = (seedNodes cn infected).1 := by
        rw [hseed]
      obtain ⟨cI, cE, cR⟩ := seed_counts hnd hinf hsub hS hok2
      have hfirst : ((0 : ℤ), (infected.length : ℤ), (0 : ℤ)) =
          ((stateCount cn0 State.EXPOSED : ℤ), (stateCount cn0 State.INFECTED : ℤ),
            (stateCount cn0 State.RECOVERED : ℤ)) := by
        rw [hcn0, cI, cE, cR]
        simp
      have hnodes0 : cn0.nodes = cn.nodes := by
        rw [hcn0]
        exact (seedNodes_fields infected cn).1
      have hnd0 : cn0.nodes.Nodup := by
        rw [hnodes0]
        exact hnd
      have hlen : infected.length ≤ cn.nodes.length := by
        have h1 : stateCount (seedNodes cn infected).1 State.INFECTED ≤
            (seedNodes cn infected).1.nodes.length := List.countP_le_length _
        rw [cI, (seedNodes_fields infected cn).1] at h1
        exact h1
      intro p hp
      rcases List.mem_cons.mp hp with rfl | hp'
      · refine ⟨le_refl 0, by positivity, le_refl 0, ?_⟩
        push_cast
        omega
      · have hres := statsLoop_bounds samps cn0 ((0 : ℤ), (infected.length : ℤ), (0 : ℤ))
          stats' hnd0 hfirst hsl p hp'
        rw [hnodes0] at hres
        exact hres

open ContactNetwork in
/-- Witness for C9: one step of `collect_statistics` on the two-node
graph seeded with node 1 Infected. -/
theorem c9_statistics_conservation_witness :
    (0 : ℤ) ≤ 0 ∧ (0 : ℤ) ≤ 1 ∧ (0 : ℤ) ≤ 0 ∧
      (0 : ℤ) + 1 + 0 ≤ ((ContactNetwork.init gW).nodes.length : ℤ) :=
  c9_statistics_conservation (ContactNetwork.init gW) [1] [(rW, eW, iW)] statsW9
    (by decide) (by decide) (by decide) (fun n => (init_spec gW).2.1 n) rfl
    ((0 : ℤ), (1 : ℤ), (0 : ℤ)) (by decide)

end ContactNet
